import Mathlib

/-!
A lexer, parser and code generator for integer literals with unary operators:
shallow embedding of `simple_compiler_integers_Unary_ops.cpp` and proofs about it.

Conventions of the embedding.

* A `std::string` is a Lean `String`; one `Char` of the Lean string stands for one
  `char` of the C++ string, and `s.data` is the character sequence that C++ indexes
  with `s[i]`.
* `size_t` cursors are `Nat`. An `int` is an `Int` in the range of 32 bits: every
  `int` addition and subtraction of the code goes through `wrap_int`, the wrap-around
  of two's complement that the compiled program performs when a line or column
  counter passes `INT_MAX` (a line of more than `2^31 - 2` characters).
* `std::vector` is `List`, `push_back x` is `++ [x]`.
* A method that mutates its object takes the object and returns the new one.
* A `while` loop is a function that is structurally recursive on a fuel argument and
  returns `none` when the fuel runs out while the loop condition still holds. The
  callers pass a fuel that is proved to be enough, so `none` never reaches a result.
* A C++ exception is a returned `Except.error`, paired with the object as it was
  mutated up to the `throw`.
* `std::cerr` is an explicit list of the records written to it.
-/

set_option maxRecDepth 4096

namespace SimpleCompiler

/-! ## Tokens -/

/-- The enumeration `TokenType`. -/
inductive TokenType where
  | INTEGER_LITERAL
  | OPERATOR_NEG
  | OPERATOR_BIT_NOT
  | OPERATOR_LOG_NOT
  | SEMICOLON
  | END_OF_FILE
  | UNKNOWN
  deriving DecidableEq, Repr

/-- The record `Token`: kind, source text, 1-based line and column. -/
structure Token where
  type : TokenType
  value : String
  line : Int
  col : Int
  deriving DecidableEq, Repr

/-- The value of `Token token;` where the code reads a token it never initialised;
only reached by `std::vector::back` on an empty vector, which the constructor of
`Parser` excludes. -/
instance : Inhabited Token := ⟨⟨TokenType.UNKNOWN, "", 1, 1⟩⟩

/-- The method `Token::type_to_string`. -/
def type_to_string : TokenType → String
  | .INTEGER_LITERAL => "INTEGER_LITERAL"
  | .OPERATOR_NEG => "OPERATOR_NEG"
  | .OPERATOR_BIT_NOT => "OPERATOR_BIT_NOT"
  | .OPERATOR_LOG_NOT => "OPERATOR_LOG_NOT"
  | .SEMICOLON => "SEMICOLON"
  | .END_OF_FILE => "END_OF_FILE"
  | .UNKNOWN => "UNKNOWN"

/-! ## Character classes -/

/-- The function `std::isspace` in the default "C" locale: space, form feed, line feed,
carriage return, horizontal tab and vertical tab. -/
def isspace (c : Char) : Bool :=
  c = ' ' || c = Char.ofNat 12 || c = '\n' || c = '\r' || c = '\t' || c = Char.ofNat 11

/-- The function `std::isdigit`: the ten characters `0` to `9`. -/
def isdigit (c : Char) : Bool :=
  decide ('0'.toNat ≤ c.toNat) && decide (c.toNat ≤ '9'.toNat)

/-! ## Lexer -/

/-- The value of an `int` expression whose exact result is `x`: the result wrapped
around to the 32 bits of `int`, from `-2147483648` to `2147483647`. Inside that range
it is `x`; past `INT_MAX` it is what the compiled program computes, the wrap-around of
two's complement (`2147483647 + 1` gives `-2147483648`). -/
def wrap_int (x : Int) : Int :=
  (x + 2147483648) % 4294967296 - 2147483648

/-- The private state of `class Lexer`. The two `int` counters start at 1 and change
only in `advance`, which keeps them in the range of `int` with `wrap_int`. -/
structure Lexer where
  source : String
  current_pos : Nat
  current_line : Int
  current_col : Int
  deriving DecidableEq, Repr

/-- The constructor `Lexer(const std::string &src)` with the default member
initialisers. -/
def Lexer.new (src : String) : Lexer :=
  { source := src, current_pos := 0, current_line := 1, current_col := 1 }

/-- The expression `source[i]` on `source.data`, for an index the code has checked. -/
def char_at (s : String) (i : Nat) : Char :=
  s.data.getD i (Char.ofNat 0)

/-- The method `Lexer::advance`: the consumed character and the moved cursor. The
increments `current_line++` and `current_col++` are `int` additions. -/
def advance (lx : Lexer) : Char × Lexer :=
  if lx.current_pos ≥ lx.source.length then
    (Char.ofNat 0, lx)
  else
    let current_char := char_at lx.source lx.current_pos
    if current_char = '\n' then
      (current_char, { lx with current_pos := lx.current_pos + 1,
                               current_line := wrap_int (lx.current_line + 1),
                               current_col := 1 })
    else
      (current_char, { lx with current_pos := lx.current_pos + 1,
                               current_col := wrap_int (lx.current_col + 1) })

/-- The method `Lexer::peek`. -/
def peek (lx : Lexer) : Char :=
  if lx.current_pos ≥ lx.source.length then Char.ofNat 0
  else char_at lx.source lx.current_pos

/-- The loop of `Lexer::skip_whitespace`, with fuel. -/
def skip_whitespace_loop : Nat → Lexer → Option Lexer
  | 0, lx =>
    if lx.current_pos < lx.source.length ∧ isspace (peek lx) = true then none
    else some lx
  | fuel + 1, lx =>
    if lx.current_pos < lx.source.length ∧ isspace (peek lx) = true then
      skip_whitespace_loop fuel (advance lx).2
    else some lx

/-- The method `Lexer::skip_whitespace`; every iteration moves the cursor one
character towards the end of the source, so the remaining length is enough fuel. -/
def skip_whitespace (lx : Lexer) : Option Lexer :=
  skip_whitespace_loop (lx.source.length - lx.current_pos) lx

/-- The loop of `Lexer::read_integer`, with fuel. -/
def read_integer_loop : Nat → Lexer → Option Lexer
  | 0, lx => if isdigit (peek lx) = true then none else some lx
  | fuel + 1, lx =>
    if isdigit (peek lx) = true then read_integer_loop fuel (advance lx).2
    else some lx

/-- The call `source.substr(pos, len)`. -/
def substr (s : String) (pos len : Nat) : String :=
  String.mk ((s.data.drop pos).take len)

/-- The method `Lexer::read_integer`, called after the first digit was consumed. -/
def read_integer (lx : Lexer) : Option (Token × Lexer) :=
  let start_pos := lx.current_pos - 1
  let start_col := wrap_int (lx.current_col - 1)
  match read_integer_loop (lx.source.length - lx.current_pos) lx with
  | none => none
  | some lx1 =>
    let number_str := substr lx1.source start_pos (lx1.current_pos - start_pos)
    some (⟨TokenType.INTEGER_LITERAL, number_str, lx1.current_line, start_col⟩, lx1)

/-- The line that `next_token` writes to `std::cerr` for an unknown character. -/
def unknown_character_warning (current_char : Char) (current_line start_col : Int) :
    String :=
  "Warning: Unknown character '" ++ String.singleton current_char ++ "' at line " ++
    toString current_line ++ ", col " ++ toString start_col

/-- The method `Lexer::next_token`: the token, the moved lexer and the lines written
to `std::cerr`. -/
def next_token (lx : Lexer) : Option (Token × Lexer × List String) :=
  match skip_whitespace lx with
  | none => none
  | some lx1 =>
    if lx1.current_pos ≥ lx1.source.length then
      some (⟨TokenType.END_OF_FILE, "", lx1.current_line, lx1.current_col⟩, lx1, [])
    else
      let current_char := (advance lx1).1
      let lx2 := (advance lx1).2
      let start_col := wrap_int (lx2.current_col - 1)
      if isdigit current_char = true then
        match read_integer lx2 with
        | none => none
        | some (tok, lx3) => some (tok, lx3, [])
      else if current_char = '-' then
        some (⟨TokenType.OPERATOR_NEG, "-", lx2.current_line, start_col⟩, lx2, [])
      else if current_char = '~' then
        some (⟨TokenType.OPERATOR_BIT_NOT, "~", lx2.current_line, start_col⟩, lx2, [])
      else if current_char = '!' then
        some (⟨TokenType.OPERATOR_LOG_NOT, "!", lx2.current_line, start_col⟩, lx2, [])
      else if current_char = ';' then
        some (⟨TokenType.SEMICOLON, ";", lx2.current_line, start_col⟩, lx2, [])
      else
        some (⟨TokenType.UNKNOWN, String.singleton current_char, lx2.current_line,
                start_col⟩, lx2,
              [unknown_character_warning current_char lx2.current_line start_col])

/-- The `do ... while` loop of `Lexer::tokenize_all`, with fuel: the tokens pushed
from this point on, the final lexer and the lines written to `std::cerr`. -/
def tokenize_all_loop : Nat → Lexer → Option (List Token × Lexer × List String)
  | 0, _ => none
  | fuel + 1, lx =>
    match next_token lx with
    | none => none
    | some (token, lx1, w) =>
      if token.type ≠ TokenType.END_OF_FILE then
        match tokenize_all_loop fuel lx1 with
        | none => none
        | some (tokens, lx2, ws) => some (token :: tokens, lx2, w ++ ws)
      else some ([token], lx1, w)

/-- The method `Lexer::tokenize_all`; every call of `next_token` that does not return
END_OF_FILE consumes a character, so one more than the remaining length is enough
fuel. -/
def tokenize_all (lx : Lexer) : Option (List Token × Lexer × List String) :=
  tokenize_all_loop (lx.source.length - lx.current_pos + 1) lx

/-- The two statements `Lexer lexer(src); tokens = lexer.tokenize_all();` of `main`,
keeping the tokens. -/
def lex (src : String) : Option (List Token) :=
  (tokenize_all (Lexer.new src)).map (fun r => r.1)

/-! ## Parser -/

/-- The `std::runtime_error` objects thrown inside `class Parser`, one constructor
for each `throw` statement, keeping the data the message is built from. -/
inductive runtime_error where
  /-- Thrown by `consume_token`. -/
  | consume_past_end
  /-- Thrown by `expect_token`: the token found and the kind expected. -/
  | unexpected_token (token : Token) (expected_type : TokenType)
  /-- Thrown by the `default` case of `parse_factor`: the token found. -/
  | unexpected_factor (token : Token)
  deriving DecidableEq, Repr

/-- The message `e.what()` of each thrown `std::runtime_error`. -/
def runtime_error.what : runtime_error → String
  | .consume_past_end => "Attempted to consume past end of tokens."
  | .unexpected_token token expected_type =>
    "Syntax Error at line " ++ toString token.line ++ ", col " ++ toString token.col ++
      ": Expected token type " ++ type_to_string expected_type ++ " but got " ++
      type_to_string token.type
  | .unexpected_factor token =>
    "Syntax Error at line " ++ toString token.line ++ ", col " ++ toString token.col ++
      ": Expected integer or unary operator, but got " ++ type_to_string token.type

/-- The line the `catch` block of `parse` writes to `std::cerr`. -/
def error_during_parsing (e : runtime_error) : String :=
  "Error during parsing: " ++ e.what

/-- The exceptions of the program by class: `std::runtime_error` (syntax and
consumption errors) and `std::invalid_argument` (thrown by the constructor). -/
inductive std_exception where
  | runtime_error (e : SimpleCompiler.runtime_error)
  | invalid_argument (what : String)
  deriving DecidableEq, Repr

/-- Equality of results with an exception is decidable. -/
instance instDecidableEqExcept {ε α : Type} [DecidableEq ε] [DecidableEq α] :
    DecidableEq (Except ε α) := fun a b =>
  match a, b with
  | .ok x, .ok y =>
    if h : x = y then isTrue (by rw [h]) else isFalse (fun e => h (Except.ok.inj e))
  | .error x, .error y =>
    if h : x = y then isTrue (by rw [h]) else isFalse (fun e => h (Except.error.inj e))
  | .ok _, .error _ => isFalse (fun e => Except.noConfusion e)
  | .error _, .ok _ => isFalse (fun e => Except.noConfusion e)

/-- The private state of `class Parser`. -/
structure Parser where
  tokens : List Token
  current_token_index : Nat
  assembly_output : List String
  deriving DecidableEq, Repr

/-- The call `tokens.back()`. -/
def back (tokens : List Token) : Token :=
  tokens.getLastD default

/-- The method `Parser::current_token`. -/
def current_token (p : Parser) : Token :=
  if p.current_token_index ≥ p.tokens.length then back p.tokens
  else p.tokens.getD p.current_token_index default

/-- The method `Parser::consume_token`. -/
def consume_token (p : Parser) : Except runtime_error Token × Parser :=
  if p.current_token_index ≥ p.tokens.length then
    (.error .consume_past_end, p)
  else
    (.ok (p.tokens.getD p.current_token_index default),
     { p with current_token_index := p.current_token_index + 1 })

/-- The method `Parser::expect_token`. -/
def expect_token (expected_type : TokenType) (p : Parser) :
    Except runtime_error Token × Parser :=
  let token := current_token p
  if token.type ≠ expected_type then
    (.error (.unexpected_token token expected_type), p)
  else consume_token p

/-- The statement `assembly_output.push_back(line)`. -/
def emit (line : String) (p : Parser) : Parser :=
  { p with assembly_output := p.assembly_output ++ [line] }

/-- The method `Parser::parse_factor`. -/
def parse_factor (p : Parser) : Except runtime_error Unit × Parser :=
  let token := current_token p
  match token.type with
  | .INTEGER_LITERAL =>
    let p1 := emit ("  PUSH " ++ token.value) p
    match consume_token p1 with
    | (.error e, p2) => (.error e, p2)
    | (.ok _, p2) => (.ok (), p2)
  | .OPERATOR_NEG | .OPERATOR_BIT_NOT | .OPERATOR_LOG_NOT =>
    let op_type := token.type
    match consume_token p with
    | (.error e, p1) => (.error e, p1)
    | (.ok _, p1) =>
      match expect_token .INTEGER_LITERAL p1 with
      | (.error e, p2) => (.error e, p2)
      | (.ok operand_token, p2) =>
        let p3 := emit ("  PUSH " ++ operand_token.value) p2
        if op_type = .OPERATOR_NEG then (.ok (), emit "  NEG" p3)
        else if op_type = .OPERATOR_BIT_NOT then (.ok (), emit "  NOT" p3)
        else (.ok (), emit "  LNOT" p3)
  | _ => (.error (.unexpected_factor token), p)

/-- The method `Parser::parse_statement`. -/
def parse_statement (p : Parser) : Except runtime_error Unit × Parser :=
  match parse_factor p with
  | (.error e, p1) => (.error e, p1)
  | (.ok _, p1) =>
    match expect_token .SEMICOLON p1 with
    | (.error e, p2) => (.error e, p2)
    | (.ok _, p2) => (.ok (), p2)

/-- The constructor `Parser(const std::vector<Token> &toks)`. -/
def Parser.new (toks : List Token) : Except std_exception Parser :=
  if toks.isEmpty = true ∨ (back toks).type ≠ .END_OF_FILE then
    .error (.invalid_argument "Token list must end with EOF token.")
  else
    .ok { tokens := toks, current_token_index := 0, assembly_output := [] }

/-- The token-discarding `while` loop in the `catch` block of `parse`, with fuel. An
exception of `consume_token` would leave the loop (and `parse`). -/
def recovery_loop : Nat → Parser → Option (Except runtime_error Unit × Parser)
  | 0, p =>
    if p.current_token_index < p.tokens.length ∧
        (current_token p).type ≠ .SEMICOLON ∧
        (current_token p).type ≠ .END_OF_FILE then none
    else some (.ok (), p)
  | fuel + 1, p =>
    if p.current_token_index < p.tokens.length ∧
        (current_token p).type ≠ .SEMICOLON ∧
        (current_token p).type ≠ .END_OF_FILE then
      match consume_token p with
      | (.error e, p1) => some (.error e, p1)
      | (.ok _, p1) => recovery_loop fuel p1
    else some (.ok (), p)

/-- How one pass through the body of the statement loop of `parse` ends. -/
inductive LoopExit where
  /-- The end of the body is reached: the loop condition is tested again. -/
  | next
  /-- The statement `break` is executed. -/
  | brk
  deriving DecidableEq, Repr

/-- The body of the statement loop of `parse`: the `try` block and its `catch`
handler. The result holds the exception, if one leaves the handler, the parser and
the exceptions caught (each written to `std::cerr` by `error_during_parsing`). The
discarding loop moves the cursor at every iteration, so the number of tokens from the
cursor on is enough fuel for it. -/
def parse_loop_body (p : Parser) :
    Option (Except runtime_error LoopExit × Parser × List runtime_error) :=
  match parse_statement p with
  | (.ok _, p1) => some (.ok .next, p1, [])
  | (.error e, p1) =>
    match recovery_loop (p1.tokens.length - p1.current_token_index) p1 with
    | none => none
    | some (.error e1, p2) => some (.error e1, p2, [e])
    | some (.ok _, p2) =>
      if (current_token p2).type = .SEMICOLON then
        match consume_token p2 with
        | (.error e2, p3) => some (.error e2, p3, [e])
        | (.ok _, p3) =>
          if (current_token p3).type = .END_OF_FILE then some (.ok .brk, p3, [e])
          else some (.ok .next, p3, [e])
      else
        if (current_token p2).type = .END_OF_FILE then some (.ok .brk, p2, [e])
        else some (.ok .next, p2, [e])

/-- The statement loop of `parse`, with fuel. -/
def parse_loop : Nat → Parser →
    Option (Except runtime_error Unit × Parser × List runtime_error)
  | 0, p =>
    if (current_token p).type ≠ .END_OF_FILE then none else some (.ok (), p, [])
  | fuel + 1, p =>
    if (current_token p).type ≠ .END_OF_FILE then
      match parse_loop_body p with
      | none => none
      | some (.error e, p1, errs) => some (.error e, p1, errs)
      | some (.ok .brk, p1, errs) => some (.ok (), p1, errs)
      | some (.ok .next, p1, errs) =>
        match parse_loop fuel p1 with
        | none => none
        | some (r, p2, errs2) => some (r, p2, errs ++ errs2)
    else some (.ok (), p, [])

/-- The method `Parser::parse`: the exception that leaves it, if any, the parser
afterwards and the exceptions caught on the way. Every pass through the loop body
either moves the cursor or ends the loop, so the number of tokens from the cursor on
is enough fuel. -/
def parse (p : Parser) : Option (Except runtime_error Unit × Parser × List runtime_error) :=
  let p1 := emit "section .text" p
  let p2 := emit "global _start" p1
  let p3 := emit "_start:" p2
  match parse_loop (p3.tokens.length - p3.current_token_index) p3 with
  | none => none
  | some (.error e, p4, errs) => some (.error e, p4, errs)
  | some (.ok _, p4, errs) =>
    let p5 := emit "" p4
    let p6 := emit "  MOV RAX, 60" p5
    let p7 := emit "  XOR RDI, RDI" p6
    let p8 := emit "  SYSCALL" p7
    some (.ok (), p8, errs)

/-- The method `Parser::get_assembly`. -/
def get_assembly (p : Parser) : List String :=
  p.assembly_output

/-! ## Vocabulary of the proofs: positions in a source -/

/-- The line of the character at offset `off`: one more than the number of line feeds
before it. -/
def line_at (s : String) (off : Nat) : Int :=
  1 + ((s.data.take off).count '\n' : Nat)

/-- The column of the character at offset `off`: one more than the number of
characters between the last line feed before it (or the start) and the offset. -/
def col_at (s : String) (off : Nat) : Int :=
  1 + (((s.data.take off).reverse.takeWhile (fun c => decide (c ≠ '\n'))).length : Nat)

/-- The cursor of a lexer is inside its source and its counters are the line and
column of the cursor, as `int` values. -/
def Lexer.wf (lx : Lexer) : Prop :=
  lx.current_pos ≤ lx.source.length ∧
  lx.current_line = wrap_int (line_at lx.source lx.current_pos) ∧
  lx.current_col = wrap_int (col_at lx.source lx.current_pos)

/-- The kind that the `switch` of `next_token` gives to a character that is not a
digit. -/
def classify (c : Char) : TokenType :=
  if c = '-' then .OPERATOR_NEG
  else if c = '~' then .OPERATOR_BIT_NOT
  else if c = '!' then .OPERATOR_LOG_NOT
  else if c = ';' then .SEMICOLON
  else .UNKNOWN

/-- Ghost trace of `tokenize_all_loop`: for every token it pushes, the value of the
cursor `current_pos` at which `next_token` found the token, that is the cursor after
`skip_whitespace` and before the `advance` that consumes the first character. -/
def token_offsets_loop : Nat → Lexer → Option (List Nat)
  | 0, _ => none
  | fuel + 1, lx =>
    match skip_whitespace lx, next_token lx with
    | some lx0, some (token, lx1, _) =>
      if token.type ≠ TokenType.END_OF_FILE then
        match token_offsets_loop fuel lx1 with
        | none => none
        | some offs => some (lx0.current_pos :: offs)
      else some [lx0.current_pos]
    | _, _ => none

/-- Ghost trace of `lex`: the offset in `src` of every token of `lex src`. -/
def token_offsets (src : String) : Option (List Nat) :=
  token_offsets_loop (src.length + 1) (Lexer.new src)

/-! ## Statements of a token sequence -/

/-- The three kinds OPERATOR_NEG, OPERATOR_BIT_NOT and OPERATOR_LOG_NOT. -/
def is_unary_operator (ty : TokenType) : Bool :=
  ty = .OPERATOR_NEG || ty = .OPERATOR_BIT_NOT || ty = .OPERATOR_LOG_NOT

/-- The opcode line of a unary operator: NEG, NOT or LNOT. -/
def opcode (op_type : TokenType) : String :=
  if op_type = .OPERATOR_NEG then "  NEG"
  else if op_type = .OPERATOR_BIT_NOT then "  NOT"
  else "  LNOT"

/-- The statements of a token sequence, each with the token that ends it: a
statement runs up to and including the next SEMICOLON, or up to and including the
first END_OF_FILE, where the sequence of statements stops. The END_OF_FILE that
follows the last SEMICOLON (or starts the sequence) forms a last element `[eof]`. -/
def statements : List Token → List (List Token)
  | [] => []
  | t :: ts =>
    if t.type = .END_OF_FILE then [[t]]
    else if t.type = .SEMICOLON then [t] :: statements ts
    else
      match statements ts with
      | [] => [[t]]
      | st :: sts => (t :: st) :: sts

/-- The instructions of the factor a statement begins with: `PUSH <value>` for an
integer literal, `PUSH <value>` and the opcode for a unary operator directly followed
by an integer literal, nothing when the statement does not begin with a factor. -/
def statement_instructions : List Token → List String
  | [] => []
  | t1 :: ts =>
    if t1.type = .INTEGER_LITERAL then ["  PUSH " ++ t1.value]
    else if is_unary_operator t1.type = true then
      match ts with
      | [] => []
      | t2 :: _ =>
        if t2.type = .INTEGER_LITERAL then ["  PUSH " ++ t2.value, opcode t1.type]
        else []
    else []

/-- The syntax error of finding the head of `ts` where a SEMICOLON is expected. -/
def semicolon_error : List Token → Option runtime_error
  | [] => none
  | t :: _ => if t.type = .SEMICOLON then none else some (.unexpected_token t .SEMICOLON)

/-- The syntax error of a statement, if it has one: the first token that is not the
one the grammar `statement := factor ';'` expects. The element `[eof]` that ends the
sequence is not a statement and has no error. -/
def statement_error : List Token → Option runtime_error
  | [] => none
  | t1 :: ts =>
    if t1.type = .END_OF_FILE then none
    else if t1.type = .INTEGER_LITERAL then semicolon_error ts
    else if is_unary_operator t1.type = true then
      match ts with
      | [] => none
      | t2 :: ts2 =>
        if t2.type = .INTEGER_LITERAL then semicolon_error ts2
        else some (.unexpected_token t2 .INTEGER_LITERAL)
    else some (.unexpected_factor t1)

/-! ## The parser on a split token sequence -/

/-- The parser whose cursor stands between `pre` and `rest`. -/
def mkP (pre rest : List Token) (asm : List String) : Parser :=
  { tokens := pre ++ rest, current_token_index := pre.length, assembly_output := asm }

/-- A token that ends a statement: SEMICOLON or END_OF_FILE. -/
def is_terminator (t : Token) : Bool :=
  t.type = .SEMICOLON || t.type = .END_OF_FILE

/-- The sequence ends with an END_OF_FILE token. -/
def ends_with_eof (toks : List Token) : Prop :=
  ∃ body eof, toks = body ++ [eof] ∧ eof.type = .END_OF_FILE

/-! ## The driver -/

/-- The three lines `parse` emits before the statements. -/
def prologue : List String :=
  ["section .text", "global _start", "_start:"]

/-- The blank line and the three lines of the exit sequence `parse` emits after the
statements. -/
def epilogue : List String :=
  ["", "  MOV RAX, 60", "  XOR RDI, RDI", "  SYSCALL"]

/-- The parsing section of `main`: `Parser parser(tokens); parser.parse();
parser.get_assembly()`. The result holds the exception that ends the section, if
there is one, the lines read with `get_assembly` (none after an exception) and the
exceptions that `parse` caught and reported. -/
def parse_tokens (toks : List Token) :
    Option (Except std_exception Unit × List String × List runtime_error) :=
  match Parser.new toks with
  | .error e => some (.error e, [], [])
  | .ok p =>
    match parse p with
    | none => none
    | some (.error e, _, errs) => some (.error (.runtime_error e), [], errs)
    | some (.ok _, p1, errs) => some (.ok (), get_assembly p1, errs)

/-- The lexing and parsing sections of `main` on the source `src`. -/
def compile (src : String) :
    Option (Except std_exception Unit × List String × List runtime_error) :=
  match lex src with
  | none => none
  | some toks => parse_tokens toks

/-! ## Vocabulary of the claims about the parser -/

/-- A statement of the grammar with its terminator: INTEGER_LITERAL SEMICOLON, or a
unary operator followed by INTEGER_LITERAL SEMICOLON. -/
def grammatical_statement : List Token → Bool
  | [i, s] => i.type = .INTEGER_LITERAL && s.type = .SEMICOLON
  | [o, i, s] =>
    is_unary_operator o.type && (i.type = .INTEGER_LITERAL && s.type = .SEMICOLON)
  | _ => false

/-- Tokens that form whole statements: none is END_OF_FILE and the last one, if there
is one, is a SEMICOLON. -/
def closed_statements (s : List Token) : Prop :=
  (∀ x ∈ s, x.type ≠ .END_OF_FILE) ∧
  (s = [] ∨ s.getLast?.map Token.type = some .SEMICOLON)

/-- The body as the specification words it: the instructions of the statements that
conform to the grammar, and nothing for the others. -/
def conforming_body (toks : List Token) : List String :=
  ((statements toks).filter grammatical_statement).flatMap statement_instructions

/-- The result of the call of `next_token` that follows `n` earlier calls on the
lexer `lx`. -/
def nth_next_token : Nat → Lexer → Option (Token × Lexer × List String)
  | 0, lx => next_token lx
  | n + 1, lx =>
    match next_token lx with
    | none => none
    | some (_, lx1, _) => nth_next_token n lx1

/-- The operand of a `PUSH` line, and nothing for a line that is no `PUSH` line: a
`PUSH` line is the seven characters of `  PUSH ` followed by the operand. -/
def push_operand (line : String) : Option String :=
  if line.data.take 7 = "  PUSH ".data then some (String.mk (line.data.drop 7)) else none

/-! ## Lemmas about the lexer -/

theorem take_succ_getD (l : List Char) (i : Nat) (d : Char) (h : i < l.length) :
    l.take (i + 1) = l.take i ++ [l.getD i d] := by
  induction l generalizing i with
  | nil => simp at h
  | cons a l ih =>
    cases i with
    | zero => simp
    | succ i =>
      have h1 : i < l.length := by simpa using h
      simp [List.take_succ_cons, ih i h1]

theorem line_at_succ (s : String) (i : Nat) (h : i < s.length) :
    line_at s (i + 1) = line_at s i + (if char_at s i = '\n' then 1 else 0) := by
  unfold line_at char_at
  rw [take_succ_getD s.data i (Char.ofNat 0) h, List.count_append]
  generalize s.data.getD i (Char.ofNat 0) = c
  by_cases hc : c = '\n'
  · subst hc; simp; ring
  · have hc2 : ¬ '\n' = c := fun e => hc e.symm
    simp [hc, hc2, List.count_singleton]

theorem col_at_succ (s : String) (i : Nat) (h : i < s.length) :
    col_at s (i + 1) = if char_at s i = '\n' then 1 else col_at s i + 1 := by
  unfold col_at char_at
  rw [take_succ_getD s.data i (Char.ofNat 0) h, List.reverse_append]
  generalize s.data.getD i (Char.ofNat 0) = c
  by_cases hc : c = '\n'
  · subst hc; simp [List.takeWhile]
  · simp [hc, List.takeWhile]; ring

theorem wrap_int_wrap_add (x y : Int) : wrap_int (wrap_int x + y) = wrap_int (x + y) := by
  unfold wrap_int; omega

theorem wrap_int_idem (x : Int) : wrap_int (wrap_int x) = wrap_int x := by
  unfold wrap_int; omega

theorem wrap_int_one : wrap_int 1 = 1 := by decide

theorem wrap_int_pred_succ (c : Int) :
    wrap_int (wrap_int (wrap_int c + 1) - 1) = wrap_int c := by
  unfold wrap_int; omega

theorem wf_new (src : String) : (Lexer.new src).wf := by
  simp [Lexer.wf, Lexer.new, line_at, col_at, wrap_int_one]

theorem advance_spec (lx : Lexer) (h : lx.wf) (hlt : lx.current_pos < lx.source.length) :
    (advance lx).1 = char_at lx.source lx.current_pos ∧
    (advance lx).2.source = lx.source ∧
    (advance lx).2.current_pos = lx.current_pos + 1 ∧
    (advance lx).2.current_line =
      (if char_at lx.source lx.current_pos = '\n' then wrap_int (lx.current_line + 1)
        else lx.current_line) ∧
    (advance lx).2.current_col =
      (if char_at lx.source lx.current_pos = '\n' then 1
        else wrap_int (lx.current_col + 1)) ∧
    (advance lx).2.wf := by
  obtain ⟨h1, h2, h3⟩ := h
  have hn : ¬ lx.current_pos ≥ lx.source.length := by omega
  by_cases hc : char_at lx.source lx.current_pos = '\n'
  · simp only [advance, hn, if_false, hc, if_true, Lexer.wf]
    refine ⟨trivial, trivial, trivial, trivial, trivial, by omega, ?_, ?_⟩
    · rw [line_at_succ _ _ hlt, h2, if_pos hc]
      exact wrap_int_wrap_add _ 1
    · rw [col_at_succ _ _ hlt, if_pos hc]
      exact wrap_int_one.symm
  · simp only [advance, hn, if_false, hc, Lexer.wf]
    refine ⟨trivial, trivial, trivial, trivial, trivial, by omega, ?_, ?_⟩
    · rw [line_at_succ _ _ hlt, h2, if_neg hc, add_zero]
    · rw [col_at_succ _ _ hlt, h3, if_neg hc]
      exact wrap_int_wrap_add _ 1

theorem peek_of_lt (lx : Lexer) (hlt : lx.current_pos < lx.source.length) :
    peek lx = char_at lx.source lx.current_pos := by
  have hn : ¬ lx.current_pos ≥ lx.source.length := by omega
  simp [peek, hn]

theorem peek_of_ge (lx : Lexer) (hge : lx.source.length ≤ lx.current_pos) :
    peek lx = Char.ofNat 0 := by
  simp [peek, hge]

theorem isdigit_zero_char : isdigit (Char.ofNat 0) = false := by decide

theorem ne_newline_of_isdigit (c : Char) (h : isdigit c = true) : c ≠ '\n' := by
  intro hc; subst hc; revert h; decide

theorem ne_newline_of_not_isspace (c : Char) (h : isspace c = false) : c ≠ '\n' := by
  intro hc; subst hc; revert h; decide

theorem skip_whitespace_loop_spec (fuel : Nat) (lx : Lexer) (h : lx.wf)
    (hf : lx.source.length - lx.current_pos ≤ fuel) :
    ∃ lx1, skip_whitespace_loop fuel lx = some lx1 ∧ lx1.wf ∧ lx1.source = lx.source ∧
      lx.current_pos ≤ lx1.current_pos ∧
      (∀ i, lx.current_pos ≤ i → i < lx1.current_pos →
        isspace (char_at lx.source i) = true) ∧
      (lx1.current_pos < lx.source.length →
        isspace (char_at lx.source lx1.current_pos) = false) := by
  induction fuel generalizing lx with
  | zero =>
    have hn : ¬ lx.current_pos < lx.source.length := by omega
    refine ⟨lx, by simp [skip_whitespace_loop, hn], h, rfl, le_refl _, ?_, ?_⟩
    · intro i h1 h2; omega
    · intro h1; omega
  | succ n ih =>
    by_cases hc : lx.current_pos < lx.source.length ∧ isspace (peek lx) = true
    · obtain ⟨_, e2, e3, _, _, e6⟩ := advance_spec lx h hc.1
      obtain ⟨lx1, r1, r2, r3, r4, r5, r6⟩ :=
        ih (advance lx).2 e6 (by rw [e2, e3]; omega)
      refine ⟨lx1, ?_, r2, r3.trans e2, by omega, ?_, ?_⟩
      · rw [skip_whitespace_loop, if_pos hc]; exact r1
      · intro i h1 h2
        by_cases hi : i = lx.current_pos
        · subst hi; rw [← peek_of_lt lx hc.1]; exact hc.2
        · rw [e2] at r5; exact r5 i (by omega) h2
      · rw [e2] at r6; exact r6
    · refine ⟨lx, ?_, h, rfl, le_refl _, ?_, ?_⟩
      · rw [skip_whitespace_loop, if_neg hc]
      · intro i h1 h2; omega
      · intro h1
        rw [← peek_of_lt lx h1]
        cases hb : isspace (peek lx) with
        | false => rfl
        | true => exact absurd ⟨h1, hb⟩ hc

theorem read_integer_loop_spec (fuel : Nat) (lx : Lexer) (h : lx.wf)
    (hf : lx.source.length - lx.current_pos ≤ fuel) :
    ∃ lx1, read_integer_loop fuel lx = some lx1 ∧ lx1.wf ∧ lx1.source = lx.source ∧
      lx.current_pos ≤ lx1.current_pos ∧
      lx1.current_line = lx.current_line ∧
      lx1.current_col =
        wrap_int (lx.current_col + ((lx1.current_pos - lx.current_pos : Nat) : Int)) ∧
      (∀ i, lx.current_pos ≤ i → i < lx1.current_pos →
        isdigit (char_at lx.source i) = true) ∧
      (lx1.current_pos < lx.source.length →
        isdigit (char_at lx.source lx1.current_pos) = false) := by
  have hstay : ∀ lx : Lexer, lx.wf → lx.current_col =
      wrap_int (lx.current_col + ((lx.current_pos - lx.current_pos : Nat) : Int)) := by
    intro lx h
    rw [Nat.sub_self, Nat.cast_zero, add_zero, h.2.2, wrap_int_idem]
  induction fuel generalizing lx with
  | zero =>
    have hge : lx.source.length ≤ lx.current_pos := by omega
    have hp : isdigit (peek lx) = false := by rw [peek_of_ge lx hge]; exact isdigit_zero_char
    refine ⟨lx, by simp [read_integer_loop, hp], h, rfl, le_refl _, rfl, hstay lx h, ?_, ?_⟩
    · intro i h1 h2; omega
    · intro h1; omega
  | succ n ih =>
    cases hc : isdigit (peek lx) with
    | true =>
      have hlt : lx.current_pos < lx.source.length := by
        by_contra hge
        rw [peek_of_ge lx (by omega), isdigit_zero_char] at hc
        exact Bool.noConfusion hc
      have hd : isdigit (char_at lx.source lx.current_pos) = true := by
        rw [← peek_of_lt lx hlt]; exact hc
      have hnl := ne_newline_of_isdigit _ hd
      obtain ⟨_, e2, e3, e4, e5, e6⟩ := advance_spec lx h hlt
      obtain ⟨lx1, r1, r2, r3, r4, r5, r6, r7, r8⟩ :=
        ih (advance lx).2 e6 (by rw [e2, e3]; omega)
      refine ⟨lx1, ?_, r2, r3.trans e2, by omega, ?_, ?_, ?_, ?_⟩
      · rw [read_integer_loop, hc]; simpa using r1
      · rw [r5, e4]; simp [hnl]
      · rw [r6, e5, e3]; simp only [hnl, if_false]
        have : lx.current_pos + 1 ≤ lx1.current_pos := by omega
        rw [wrap_int_wrap_add]
        congr 1
        omega
      · intro i h1 h2
        by_cases hi : i = lx.current_pos
        · subst hi; exact hd
        · rw [e2] at r7; exact r7 i (by omega) h2
      · rw [e2] at r8; exact r8
    | false =>
      refine ⟨lx, ?_, h, rfl, le_refl _, rfl, hstay lx h, ?_, ?_⟩
      · rw [read_integer_loop, hc]; simp
      · intro i h1 h2; omega
      · intro h1; rw [← peek_of_lt lx h1]; exact hc

theorem substr_one (s : String) (i : Nat) (h : i < s.length) :
    substr s i 1 = String.singleton (char_at s i) := by
  have key : ∀ (l : List Char) (i : Nat), i < l.length →
      (l.drop i).take 1 = [l.getD i (Char.ofNat 0)] := by
    intro l
    induction l with
    | nil => intro i hi; simp at hi
    | cons a l ih =>
      intro i hi
      cases i with
      | zero => simp
      | succ i => simpa using ih i (by simpa using hi)
  unfold substr char_at
  rw [key s.data i h]
  rfl

theorem classify_ne_eof (c : Char) : classify c ≠ .END_OF_FILE := by
  unfold classify
  split_ifs <;> simp

theorem next_token_of_eof (lx lx0 : Lexer) (hs : skip_whitespace lx = some lx0)
    (hge : lx0.current_pos ≥ lx0.source.length) :
    next_token lx =
      some (⟨.END_OF_FILE, "", lx0.current_line, lx0.current_col⟩, lx0, []) := by
  simp only [next_token, hs, hge, if_true]

theorem next_token_of_not_digit (lx lx0 : Lexer) (hs : skip_whitespace lx = some lx0)
    (hlt : lx0.current_pos < lx0.source.length)
    (hd : isdigit (advance lx0).1 = false) :
    next_token lx =
      some (⟨classify (advance lx0).1, String.singleton (advance lx0).1,
              (advance lx0).2.current_line, wrap_int ((advance lx0).2.current_col - 1)⟩,
            (advance lx0).2,
            if classify (advance lx0).1 = .UNKNOWN then
              [unknown_character_warning (advance lx0).1 (advance lx0).2.current_line
                (wrap_int ((advance lx0).2.current_col - 1))]
            else []) := by
  have hn : ¬ lx0.current_pos ≥ lx0.source.length := by omega
  simp only [next_token, hs, hn, if_false, hd, Bool.false_eq_true, classify]
  by_cases h1 : (advance lx0).1 = '-'
  · simp only [h1, if_true]; rfl
  by_cases h2 : (advance lx0).1 = '~'
  · simp only [h2, if_true]; rfl
  by_cases h3 : (advance lx0).1 = '!'
  · simp only [h3, if_true]; rfl
  by_cases h4 : (advance lx0).1 = ';'
  · simp only [h4, if_true]; rfl
  simp only [h1, h2, h3, h4, if_false, if_true]

theorem next_token_of_digit (lx lx0 lx3 : Lexer) (hs : skip_whitespace lx = some lx0)
    (hlt : lx0.current_pos < lx0.source.length)
    (hd : isdigit (advance lx0).1 = true)
    (hr : read_integer_loop ((advance lx0).2.source.length - (advance lx0).2.current_pos)
            (advance lx0).2 = some lx3) :
    next_token lx =
      some (⟨.INTEGER_LITERAL,
              substr lx3.source ((advance lx0).2.current_pos - 1)
                (lx3.current_pos - ((advance lx0).2.current_pos - 1)),
              lx3.current_line, wrap_int ((advance lx0).2.current_col - 1)⟩, lx3, []) := by
  have hn : ¬ lx0.current_pos ≥ lx0.source.length := by omega
  simp only [next_token, hs, hn, if_false, hd, if_true, read_integer, hr]

theorem next_token_spec (lx : Lexer) (h : lx.wf) :
    ∃ lx0 tok lx1 w, skip_whitespace lx = some lx0 ∧ next_token lx = some (tok, lx1, w) ∧
      lx0.wf ∧ lx1.wf ∧ lx0.source = lx.source ∧ lx1.source = lx.source ∧
      lx.current_pos ≤ lx0.current_pos ∧
      tok.line = wrap_int (line_at lx.source lx0.current_pos) ∧
      tok.col = wrap_int (col_at lx.source lx0.current_pos) ∧
      ((tok.type = .END_OF_FILE ∧ lx1 = lx0 ∧ lx0.current_pos = lx.source.length ∧
          tok.value = "") ∨
       (tok.type ≠ .END_OF_FILE ∧ lx0.current_pos < lx1.current_pos ∧
          tok.value =
            substr lx.source lx0.current_pos (lx1.current_pos - lx0.current_pos))) := by
  obtain ⟨lx0, s1, s2, s3, s4, _, s6⟩ := skip_whitespace_loop_spec _ lx h (le_refl _)
  have hs : skip_whitespace lx = some lx0 := s1
  have w0 := s2
  obtain ⟨w1, w2, w3⟩ := w0
  by_cases hge : lx0.current_pos ≥ lx0.source.length
  · refine ⟨lx0, _, lx0, [], hs, next_token_of_eof lx lx0 hs hge, s2, s2, s3, s3, s4,
      ?_, ?_, Or.inl ⟨rfl, rfl, ?_, rfl⟩⟩
    · rw [← s3]; exact w2
    · rw [← s3]; exact w3
    · rw [← s3]; omega
  · have hlt : lx0.current_pos < lx0.source.length := by omega
    obtain ⟨a1, a2, a3, a4, a5, a6⟩ := advance_spec lx0 s2 hlt
    have hns : isspace (char_at lx0.source lx0.current_pos) = false := by
      rw [s3]; exact s6 (by rw [← s3]; exact hlt)
    have hnl := ne_newline_of_not_isspace _ hns
    simp only [hnl, if_false] at a4 a5
    cases hd : isdigit (advance lx0).1 with
    | true =>
      obtain ⟨lx3, r1, r2, r3, r4, r5, _, _, _⟩ :=
        read_integer_loop_spec _ (advance lx0).2 a6 (le_refl _)
      refine ⟨lx0, _, lx3, [], hs, next_token_of_digit lx lx0 lx3 hs hlt hd r1, s2, r2, s3,
        by rw [r3, a2, s3], s4, ?_, ?_, Or.inr ⟨by simp, by omega, ?_⟩⟩
      · show lx3.current_line = _
        rw [r5, a4, w2, s3]
      · show wrap_int ((advance lx0).2.current_col - 1) = _
        rw [a5, w3, s3]; exact wrap_int_pred_succ _
      · show substr _ _ _ = _
        rw [r3, a2, s3, a3]; simp
    | false =>
      refine ⟨lx0, _, (advance lx0).2, _, hs, next_token_of_not_digit lx lx0 hs hlt hd,
        s2, a6, s3, by rw [a2, s3], s4, ?_, ?_,
        Or.inr ⟨classify_ne_eof _, by omega, ?_⟩⟩
      · show (advance lx0).2.current_line = _
        rw [a4, w2, s3]
      · show wrap_int ((advance lx0).2.current_col - 1) = _
        rw [a5, w3, s3]; exact wrap_int_pred_succ _
      · show String.singleton _ = _
        rw [a3, a1, ← s3]
        simp only [Nat.add_sub_cancel_left]
        exact (substr_one _ _ hlt).symm

theorem tokenize_all_loop_spec (fuel : Nat) (lx : Lexer) (h : lx.wf)
    (hf : lx.source.length - lx.current_pos + 1 ≤ fuel) :
    ∃ init eof lx1 ws, tokenize_all_loop fuel lx = some (init ++ [eof], lx1, ws) ∧
      eof.type = .END_OF_FILE ∧ (∀ t ∈ init, t.type ≠ .END_OF_FILE) ∧
      lx1.wf ∧ lx1.source = lx.source ∧ lx1.current_pos = lx.source.length := by
  induction fuel generalizing lx with
  | zero => omega
  | succ n ih =>
    obtain ⟨lx0, tok, lx1, w, _, n2, _, n4, _, n6, n7, _, _, n10⟩ := next_token_spec lx h
    rcases n10 with ⟨t1, t2, t3, _⟩ | ⟨t1, t2, _⟩
    · refine ⟨[], tok, lx1, w, ?_, t1, by simp, n4, n6, by rw [t2]; exact t3⟩
      simp only [tokenize_all_loop, n2, t1, ne_eq, not_true_eq_false, if_false,
        List.nil_append]
    · have hle : lx1.current_pos ≤ lx.source.length := by rw [← n6]; exact n4.1
      obtain ⟨init, eof, lx2, ws, r1, r2, r3, r4, r5, r6⟩ :=
        ih lx1 n4 (by rw [n6]; omega)
      refine ⟨tok :: init, eof, lx2, w ++ ws, ?_, r2, ?_, r4, r5.trans n6, by rw [r6, n6]⟩
      · simp only [tokenize_all_loop, n2, ne_eq, t1, not_false_eq_true, if_true, r1,
          List.cons_append]
      · intro t ht
        rcases List.mem_cons.mp ht with rfl | ht
        · exact t1
        · exact r3 t ht

theorem length_substr (s : String) (i n : Nat) (h : i + n ≤ s.length) :
    (substr s i n).length = n := by
  have h1 : i + n ≤ s.data.length := h
  show ((s.data.drop i).take n).length = n
  simp only [List.length_take, List.length_drop]
  omega

/-- C1: for every source string, `tokenize_all` terminates (the fuel of the model is
enough) and returns a non-empty token sequence whose last token has kind END_OF_FILE
and in which no earlier token has kind END_OF_FILE. -/
theorem C1_tokenize_all_ends_with_single_eof (src : String) :
    ∃ tokens lx ws, tokenize_all (Lexer.new src) = some (tokens, lx, ws) ∧
      tokens ≠ [] ∧
      tokens.getLast?.map Token.type = some TokenType.END_OF_FILE ∧
      ∀ t ∈ tokens.dropLast, t.type ≠ TokenType.END_OF_FILE := by
  obtain ⟨init, eof, lx1, ws, r1, r2, r3, _⟩ :=
    tokenize_all_loop_spec ((Lexer.new src).source.length - (Lexer.new src).current_pos + 1)
      (Lexer.new src) (wf_new src) (le_refl _)
  refine ⟨init ++ [eof], lx1, ws, r1, by simp, by simp [r2], ?_⟩
  simpa using r3

theorem getD_append_length (pre : List Token) (t : Token) (r : List Token) (d : Token) :
    (pre ++ t :: r).getD pre.length d = t := by
  induction pre with
  | nil => rfl
  | cons a pre ih => simpa using ih

theorem current_token_mkP (pre : List Token) (t : Token) (r : List Token)
    (asm : List String) : current_token (mkP pre (t :: r) asm) = t := by
  have hn : ¬ pre.length ≥ (pre ++ t :: r).length := by simp
  simp only [current_token, mkP, hn, if_false]
  exact getD_append_length pre t r default

theorem consume_token_mkP (pre : List Token) (t : Token) (r : List Token)
    (asm : List String) :
    consume_token (mkP pre (t :: r) asm) = (.ok t, mkP (pre ++ [t]) r asm) := by
  have hn : ¬ pre.length ≥ (pre ++ t :: r).length := by simp
  simp only [consume_token, mkP, hn, if_false, getD_append_length]
  simp

theorem emit_mkP (line : String) (pre rest : List Token) (asm : List String) :
    emit line (mkP pre rest asm) = mkP pre rest (asm ++ [line]) := rfl

theorem expect_token_mkP_ok (ty : TokenType) (pre : List Token) (t : Token)
    (r : List Token) (asm : List String) (h : t.type = ty) :
    expect_token ty (mkP pre (t :: r) asm) = (.ok t, mkP (pre ++ [t]) r asm) := by
  simp only [expect_token, current_token_mkP, h, ne_eq, not_true_eq_false, if_false,
    consume_token_mkP]

theorem expect_token_mkP_error (ty : TokenType) (pre : List Token) (t : Token)
    (r : List Token) (asm : List String) (h : t.type ≠ ty) :
    expect_token ty (mkP pre (t :: r) asm) =
      (.error (.unexpected_token t ty), mkP pre (t :: r) asm) := by
  simp only [expect_token, current_token_mkP, h, ne_eq, not_false_eq_true, if_true]

theorem recovery_loop_spec (fuel : Nat) (pre b : List Token) (term : Token)
    (r : List Token) (asm : List String)
    (hb : ∀ t ∈ b, is_terminator t = false) (hterm : is_terminator term = true)
    (hf : b.length ≤ fuel) :
    recovery_loop fuel (mkP pre (b ++ term :: r) asm) =
      some (.ok (), mkP (pre ++ b) (term :: r) asm) := by
  induction b generalizing fuel pre with
  | nil =>
    have hc : ¬ ((mkP pre (term :: r) asm).current_token_index <
          (mkP pre (term :: r) asm).tokens.length ∧
        (current_token (mkP pre (term :: r) asm)).type ≠ .SEMICOLON ∧
        (current_token (mkP pre (term :: r) asm)).type ≠ .END_OF_FILE) := by
      rw [current_token_mkP]
      simp only [is_terminator, Bool.or_eq_true, decide_eq_true_eq] at hterm
      rintro ⟨_, h2, h3⟩
      rcases hterm with h | h
      · exact h2 h
      · exact h3 h
    cases fuel with
    | zero => simp only [List.nil_append, recovery_loop, hc, if_false, List.append_nil]
    | succ n => simp only [List.nil_append, recovery_loop, hc, if_false, List.append_nil]
  | cons a b ih =>
    have ha := hb a (List.mem_cons_self _ _)
    simp only [is_terminator, Bool.or_eq_false_iff, decide_eq_false_iff_not] at ha
    rw [List.cons_append]
    have hc : ((mkP pre (a :: (b ++ term :: r)) asm).current_token_index <
          (mkP pre (a :: (b ++ term :: r)) asm).tokens.length ∧
        (current_token (mkP pre (a :: (b ++ term :: r)) asm)).type ≠ .SEMICOLON ∧
        (current_token (mkP pre (a :: (b ++ term :: r)) asm)).type ≠ .END_OF_FILE) := by
      rw [current_token_mkP]
      exact ⟨by simp [mkP], ha.1, ha.2⟩
    cases fuel with
    | zero => simp at hf
    | succ n =>
      have hb2 : ∀ t ∈ b, is_terminator t = false :=
        fun t ht => hb t (List.mem_cons_of_mem _ ht)
      have hf2 : b.length ≤ n := by simpa using hf
      rw [recovery_loop, if_pos hc, consume_token_mkP]
      simp only []
      rw [ih n (pre ++ [a]) hb2 hf2]
      simp

theorem parse_factor_integer (pre : List Token) (t : Token) (r : List Token)
    (asm : List String) (h : t.type = .INTEGER_LITERAL) :
    parse_factor (mkP pre (t :: r) asm) =
      (.ok (), mkP (pre ++ [t]) r (asm ++ ["  PUSH " ++ t.value])) := by
  simp only [parse_factor, current_token_mkP, h, emit_mkP, consume_token_mkP]

theorem parse_factor_operator_ok (pre : List Token) (t1 t2 : Token) (r : List Token)
    (asm : List String) (h1 : is_unary_operator t1.type = true)
    (h2 : t2.type = .INTEGER_LITERAL) :
    parse_factor (mkP pre (t1 :: t2 :: r) asm) =
      (.ok (), mkP (pre ++ [t1, t2]) r (asm ++ ["  PUSH " ++ t2.value, opcode t1.type])) := by
  cases h : t1.type <;> simp [is_unary_operator, h] at h1 <;>
    simp [parse_factor, current_token_mkP, h, consume_token_mkP,
      expect_token_mkP_ok _ _ _ _ _ h2, emit_mkP, opcode]

theorem parse_factor_operator_error (pre : List Token) (t1 t2 : Token) (r : List Token)
    (asm : List String) (h1 : is_unary_operator t1.type = true)
    (h2 : t2.type ≠ .INTEGER_LITERAL) :
    parse_factor (mkP pre (t1 :: t2 :: r) asm) =
      (.error (.unexpected_token t2 .INTEGER_LITERAL), mkP (pre ++ [t1]) (t2 :: r) asm) := by
  cases h : t1.type <;> simp [is_unary_operator, h] at h1 <;>
    simp [parse_factor, current_token_mkP, h, consume_token_mkP,
      expect_token_mkP_error _ _ _ _ _ h2]

theorem parse_factor_other (pre : List Token) (t : Token) (r : List Token)
    (asm : List String) (h1 : t.type ≠ .INTEGER_LITERAL)
    (h2 : is_unary_operator t.type = false) :
    parse_factor (mkP pre (t :: r) asm) =
      (.error (.unexpected_factor t), mkP pre (t :: r) asm) := by
  cases h : t.type <;> simp [is_unary_operator, h] at h1 h2 <;>
    simp [parse_factor, current_token_mkP, h]

theorem not_terminator_iff (t : Token) :
    is_terminator t = false ↔ t.type ≠ .SEMICOLON ∧ t.type ≠ .END_OF_FILE := by
  simp [is_terminator]

theorem terminator_iff (t : Token) :
    is_terminator t = true ↔ t.type = .SEMICOLON ∨ t.type = .END_OF_FILE := by
  simp [is_terminator]

/-- The result of `expect_token(SEMICOLON)` after a factor, on the tokens `b` of the
statement that follow the factor and the terminator `term`. -/
theorem expect_semicolon_spec (pre b : List Token) (term : Token) (r : List Token)
    (asm : List String) (hb : ∀ t ∈ b, is_terminator t = false) :
    (semicolon_error (b ++ [term]) = none ∧ b = [] ∧ term.type = .SEMICOLON ∧
      expect_token .SEMICOLON (mkP pre (b ++ term :: r) asm) =
        (.ok term, mkP (pre ++ [term]) r asm)) ∨
    (∃ e, semicolon_error (b ++ [term]) = some e ∧
      expect_token .SEMICOLON (mkP pre (b ++ term :: r) asm) =
        (.error e, mkP pre (b ++ term :: r) asm)) := by
  rcases b with _ | ⟨t2, b⟩
  · by_cases hs : term.type = .SEMICOLON
    · left
      exact ⟨by simp [semicolon_error, hs], rfl, hs, expect_token_mkP_ok _ _ _ _ _ hs⟩
    · right
      exact ⟨_, by simp [semicolon_error, hs], expect_token_mkP_error _ _ _ _ _ hs⟩
  · have h2 := (not_terminator_iff t2).mp (hb t2 (List.mem_cons_self _ _))
    right
    exact ⟨_, by simp [semicolon_error, h2.1], expect_token_mkP_error _ _ _ _ _ h2.1⟩

theorem parse_statement_spec (pre seg : List Token) (term : Token) (r : List Token)
    (asm : List String)
    (hseg : ∀ t ∈ seg, is_terminator t = false) (hterm : is_terminator term = true)
    (hne : seg = [] → term.type = .SEMICOLON) :
    (statement_error (seg ++ [term]) = none ∧ term.type = .SEMICOLON ∧
      parse_statement (mkP pre (seg ++ term :: r) asm) =
        (.ok (), mkP (pre ++ seg ++ [term]) r
          (asm ++ statement_instructions (seg ++ [term])))) ∨
    (∃ e a b, statement_error (seg ++ [term]) = some e ∧ seg = a ++ b ∧
      parse_statement (mkP pre (seg ++ term :: r) asm) =
        (.error e, mkP (pre ++ a) (b ++ term :: r)
          (asm ++ statement_instructions (seg ++ [term])))) := by
  rcases seg with _ | ⟨t1, seg⟩
  · -- the statement is the SEMICOLON alone
    have hs := hne rfl
    have h1 : term.type ≠ .INTEGER_LITERAL := by rw [hs]; simp
    have h2 : is_unary_operator term.type = false := by rw [hs]; rfl
    right
    refine ⟨.unexpected_factor term, [], [], ?_, rfl, ?_⟩
    · simp [statement_error, hs, is_unary_operator]
    · simp [parse_statement, parse_factor_other _ _ _ _ h1 h2, statement_instructions,
        hs, is_unary_operator]
  · have ht1 := (not_terminator_iff t1).mp (hseg t1 (List.mem_cons_self _ _))
    have hseg1 : ∀ t ∈ seg, is_terminator t = false :=
      fun t ht => hseg t (List.mem_cons_of_mem _ ht)
    by_cases hi : t1.type = .INTEGER_LITERAL
    · -- an integer literal, then the SEMICOLON is expected
      have hcode : statement_instructions (t1 :: seg ++ [term]) = ["  PUSH " ++ t1.value] := by
        simp [statement_instructions, hi]
      have herr : statement_error (t1 :: seg ++ [term]) = semicolon_error (seg ++ [term]) := by
        simp [statement_error, hi]
      rcases expect_semicolon_spec (pre ++ [t1]) seg term r (asm ++ ["  PUSH " ++ t1.value])
          hseg1 with ⟨e1, e2, e3, e4⟩ | ⟨e, e1, e2⟩
      · left
        subst e2
        refine ⟨by rw [herr]; exact e1, e3, ?_⟩
        rw [hcode]
        simp only [List.cons_append, List.nil_append] at e4 ⊢
        simp [parse_statement, parse_factor_integer _ _ _ _ hi, e4]
      · right
        refine ⟨e, [t1], seg, by rw [herr]; exact e1, rfl, ?_⟩
        rw [hcode]
        simp only [List.cons_append] at e2 ⊢
        simp [parse_statement, parse_factor_integer _ _ _ _ hi, e2]
    · by_cases ho : is_unary_operator t1.type = true
      · rcases seg with _ | ⟨t2, seg⟩
        · -- an operator directly followed by the terminator
          have h2 : term.type ≠ .INTEGER_LITERAL := by
            rcases (terminator_iff term).mp hterm with h | h <;> rw [h] <;> simp
          right
          refine ⟨.unexpected_token term .INTEGER_LITERAL, [t1], [], ?_, rfl, ?_⟩
          · simp [statement_error, ht1.2, hi, ho, h2]
          · simp [parse_statement, parse_factor_operator_error _ _ _ _ _ ho h2,
              statement_instructions, hi, ho, h2]
        · have hseg2 : ∀ t ∈ seg, is_terminator t = false :=
            fun t ht => hseg1 t (List.mem_cons_of_mem _ ht)
          by_cases h2 : t2.type = .INTEGER_LITERAL
          · -- an operator and a literal, then the SEMICOLON is expected
            have hcode : statement_instructions (t1 :: t2 :: seg ++ [term]) =
                ["  PUSH " ++ t2.value, opcode t1.type] := by
              simp [statement_instructions, hi, ho, h2]
            have herr : statement_error (t1 :: t2 :: seg ++ [term]) =
                semicolon_error (seg ++ [term]) := by
              simp [statement_error, ht1.2, hi, ho, h2]
            rcases expect_semicolon_spec (pre ++ [t1, t2]) seg term r
                (asm ++ ["  PUSH " ++ t2.value, opcode t1.type]) hseg2 with
              ⟨e1, e2, e3, e4⟩ | ⟨e, e1, e2⟩
            · left
              subst e2
              refine ⟨by rw [herr]; exact e1, e3, ?_⟩
              rw [hcode]
              simp only [List.cons_append, List.nil_append] at e4 ⊢
              simp [parse_statement, parse_factor_operator_ok _ _ _ _ _ ho h2, e4]
            · right
              refine ⟨e, [t1, t2], seg, by rw [herr]; exact e1, rfl, ?_⟩
              rw [hcode]
              simp only [List.cons_append] at e2 ⊢
              simp [parse_statement, parse_factor_operator_ok _ _ _ _ _ ho h2, e2]
          · -- an operator followed by something else
            right
            refine ⟨.unexpected_token t2 .INTEGER_LITERAL, [t1], t2 :: seg, ?_, rfl, ?_⟩
            · simp [statement_error, ht1.2, hi, ho, h2]
            · simp [parse_statement, parse_factor_operator_error _ _ _ _ _ ho h2,
                statement_instructions, hi, ho, h2]
      · -- neither a literal nor an operator
        have ho2 : is_unary_operator t1.type = false := by simpa using ho
        right
        refine ⟨.unexpected_factor t1, [], t1 :: seg, ?_, rfl, ?_⟩
        · simp [statement_error, ht1.2, hi, ho2]
        · simp [parse_statement, parse_factor_other _ _ _ _ hi ho2,
            statement_instructions, hi, ho2]

theorem parse_loop_body_semicolon (pre seg : List Token) (term t : Token)
    (r : List Token) (asm : List String)
    (hseg : ∀ t ∈ seg, is_terminator t = false) (hterm : term.type = .SEMICOLON) :
    ∃ ctl, parse_loop_body (mkP pre (seg ++ term :: t :: r) asm) =
        some (.ok ctl, mkP (pre ++ seg ++ [term]) (t :: r)
          (asm ++ statement_instructions (seg ++ [term])),
          (statement_error (seg ++ [term])).toList) ∧
      (ctl = .brk → t.type = .END_OF_FILE) := by
  have hterm2 : is_terminator term = true := (terminator_iff term).mpr (Or.inl hterm)
  rcases parse_statement_spec pre seg term (t :: r) asm hseg hterm2 (fun _ => hterm) with
    ⟨e1, _, e3⟩ | ⟨e, a, b, e1, e2, e3⟩
  · refine ⟨.next, ?_, fun h => LoopExit.noConfusion h⟩
    simp only [parse_loop_body, e3, e1, Option.toList]
  · subst e2
    have hb : ∀ t ∈ b, is_terminator t = false :=
      fun t ht => hseg t (List.mem_append_right _ ht)
    have hrec := recovery_loop_spec
      ((mkP (pre ++ a) (b ++ term :: t :: r)
        (asm ++ statement_instructions (a ++ b ++ [term]))).tokens.length -
       (mkP (pre ++ a) (b ++ term :: t :: r)
        (asm ++ statement_instructions (a ++ b ++ [term]))).current_token_index)
      (pre ++ a) b term (t :: r) (asm ++ statement_instructions (a ++ b ++ [term]))
      hb hterm2 (by simp only [mkP, List.length_append, List.length_cons]; omega)
    by_cases ht : t.type = .END_OF_FILE
    · refine ⟨.brk, ?_, fun _ => ht⟩
      rw [parse_loop_body, e3, e1]
      simp only []
      rw [hrec]
      simp only [current_token_mkP, hterm, if_true, consume_token_mkP, ht, e1,
        Option.toList, List.append_assoc]
    · refine ⟨.next, ?_, fun h => LoopExit.noConfusion h⟩
      rw [parse_loop_body, e3, e1]
      simp only []
      rw [hrec]
      simp only [current_token_mkP, hterm, if_true, consume_token_mkP, ht, if_false, e1,
        Option.toList, List.append_assoc]

theorem parse_loop_body_eof (pre seg : List Token) (term : Token)
    (r : List Token) (asm : List String)
    (hseg : ∀ t ∈ seg, is_terminator t = false) (hterm : term.type = .END_OF_FILE)
    (hne : seg ≠ []) :
    parse_loop_body (mkP pre (seg ++ term :: r) asm) =
      some (.ok .brk, mkP (pre ++ seg) (term :: r)
        (asm ++ statement_instructions (seg ++ [term])),
        (statement_error (seg ++ [term])).toList) := by
  have hterm2 : is_terminator term = true := (terminator_iff term).mpr (Or.inr hterm)
  have hns : term.type ≠ .SEMICOLON := by rw [hterm]; simp
  rcases parse_statement_spec pre seg term r asm hseg hterm2 (fun h => absurd h hne) with
    ⟨_, e2, _⟩ | ⟨e, a, b, e1, e2, e3⟩
  · exact absurd e2 hns
  · subst e2
    have hb : ∀ t ∈ b, is_terminator t = false :=
      fun t ht => hseg t (List.mem_append_right _ ht)
    have hrec := recovery_loop_spec
      ((mkP (pre ++ a) (b ++ term :: r)
        (asm ++ statement_instructions (a ++ b ++ [term]))).tokens.length -
       (mkP (pre ++ a) (b ++ term :: r)
        (asm ++ statement_instructions (a ++ b ++ [term]))).current_token_index)
      (pre ++ a) b term r (asm ++ statement_instructions (a ++ b ++ [term]))
      hb hterm2 (by simp only [mkP, List.length_append, List.length_cons]; omega)
    rw [parse_loop_body, e3, e1]
    simp only []
    rw [hrec]
    simp [current_token_mkP, hterm, Option.toList]

theorem split_statement (rest : List Token) (h : ends_with_eof rest) :
    ∃ seg term r, rest = seg ++ term :: r ∧ (∀ t ∈ seg, is_terminator t = false) ∧
      is_terminator term = true ∧ (term.type = .SEMICOLON → ends_with_eof r) := by
  obtain ⟨body, eof, rfl, heof⟩ := h
  induction body with
  | nil =>
    refine ⟨[], eof, [], rfl, by simp, (terminator_iff eof).mpr (Or.inr heof), ?_⟩
    intro hs; rw [heof] at hs; exact TokenType.noConfusion hs
  | cons t body ih =>
    cases ht : is_terminator t with
    | true =>
      exact ⟨[], t, body ++ [eof], rfl, by simp, ht, fun _ => ⟨body, eof, rfl, heof⟩⟩
    | false =>
      obtain ⟨seg, term, r, e1, e2, e3, e4⟩ := ih
      refine ⟨t :: seg, term, r, by simp [e1], ?_, e3, e4⟩
      intro x hx
      rcases List.mem_cons.mp hx with rfl | hx
      · exact ht
      · exact e2 x hx

theorem statements_append (seg : List Token) (term : Token) (r : List Token)
    (hseg : ∀ t ∈ seg, is_terminator t = false) (hterm : is_terminator term = true) :
    statements (seg ++ term :: r) =
      (seg ++ [term]) :: (if term.type = .SEMICOLON then statements r else []) := by
  induction seg with
  | nil =>
    rcases (terminator_iff term).mp hterm with h | h
    · simp [statements, h]
    · simp [statements, h]
  | cons t seg ih =>
    have ht := (not_terminator_iff t).mp (hseg t (List.mem_cons_self _ _))
    have ih2 := ih (fun x hx => hseg x (List.mem_cons_of_mem _ hx))
    rw [List.cons_append, statements, if_neg ht.2, if_neg ht.1, ih2]
    rfl

theorem parse_loop_at_eof (n : Nat) (pre : List Token) (t : Token) (r : List Token)
    (asm : List String) (ht : t.type = .END_OF_FILE) :
    parse_loop n (mkP pre (t :: r) asm) = some (.ok (), mkP pre (t :: r) asm, []) := by
  cases n <;> simp [parse_loop, current_token_mkP, ht]

theorem statements_at_eof (t : Token) (r : List Token) (ht : t.type = .END_OF_FILE) :
    statements (t :: r) = [[t]] := by
  simp [statements, ht]

theorem statement_instructions_eof (t : Token) (ht : t.type = .END_OF_FILE) :
    statement_instructions [t] = [] := by
  simp [statement_instructions, ht, is_unary_operator]

theorem statement_error_eof (t : Token) (ht : t.type = .END_OF_FILE) :
    statement_error [t] = none := by
  simp [statement_error, ht]

theorem parse_loop_spec (n : Nat) (pre rest : List Token) (asm : List String)
    (h : ends_with_eof rest) (hn : rest.length ≤ n) :
    ∃ skipped t r1, rest = skipped ++ t :: r1 ∧ t.type = .END_OF_FILE ∧
      (∀ x ∈ skipped, x.type ≠ .END_OF_FILE) ∧
      parse_loop n (mkP pre rest asm) =
        some (.ok (), mkP (pre ++ skipped) (t :: r1)
          (asm ++ (statements rest).flatMap statement_instructions),
          (statements rest).filterMap statement_error) := by
  induction n generalizing pre rest asm with
  | zero =>
    obtain ⟨body, eof, rfl, _⟩ := h
    simp at hn
  | succ n ih =>
    obtain ⟨seg, term, r, rfl, hseg, hterm, hr⟩ := split_statement rest h
    have hsegE : ∀ x ∈ seg, x.type ≠ .END_OF_FILE :=
      fun x hx => ((not_terminator_iff x).mp (hseg x hx)).2
    rcases (terminator_iff term).mp hterm with hs | he
    · -- the statement ends with a SEMICOLON
      obtain ⟨body, eof, hr1, hr2⟩ := hr hs
      have hrne : r ≠ [] := by rw [hr1]; simp
      obtain ⟨t, r', rfl⟩ := List.exists_cons_of_ne_nil hrne
      obtain ⟨ctl, b1, b2⟩ := parse_loop_body_semicolon pre seg term t r' asm hseg hs
      have hlen : (t :: r').length ≤ n := by
        simp only [List.length_append, List.length_cons] at hn ⊢; omega
      obtain ⟨skipped, t1, r1, i1, i2, i3, i4⟩ :=
        ih (pre ++ seg ++ [term]) (t :: r')
          (asm ++ statement_instructions (seg ++ [term])) ⟨body, eof, hr1, hr2⟩ hlen
      have hcond : (current_token (mkP pre (seg ++ term :: t :: r') asm)).type ≠
          .END_OF_FILE := by
        rcases seg with _ | ⟨a, seg⟩
        · rw [List.nil_append, current_token_mkP, hs]; simp
        · rw [List.cons_append, current_token_mkP]
          exact hsegE a (List.mem_cons_self _ _)
      have hsemiE : ∀ x ∈ seg ++ [term], x.type ≠ .END_OF_FILE := by
        intro x hx
        rcases List.mem_append.mp hx with hx | hx
        · exact hsegE x hx
        · rw [List.mem_singleton.mp hx, hs]; simp
      rw [statements_append seg term (t :: r') hseg hterm, if_pos hs]
      rw [parse_loop, if_pos hcond, b1]
      cases ctl with
      | next =>
        refine ⟨seg ++ [term] ++ skipped, t1, r1, by rw [i1]; simp, i2, ?_, ?_⟩
        · intro x hx
          rcases List.mem_append.mp hx with hx | hx
          · exact hsemiE x hx
          · exact i3 x hx
        · simp only []
          rw [i4]
          cases hse : statement_error (seg ++ [term]) <;>
            simp [Option.toList, List.flatMap_cons, List.filterMap_cons, hse]
      | brk =>
        have ht := b2 rfl
        refine ⟨seg ++ [term], t, r', by simp, ht, hsemiE, ?_⟩
        simp only []
        rw [statements_at_eof t r' ht]
        cases hse : statement_error (seg ++ [term]) <;>
          simp [Option.toList, List.flatMap_cons, List.filterMap_cons, hse,
            statement_instructions_eof t ht, statement_error_eof t ht]
    · -- the statement ends at END_OF_FILE
      rcases seg with _ | ⟨a, seg⟩
      · refine ⟨[], term, r, rfl, he, by simp, ?_⟩
        rw [List.nil_append, parse_loop_at_eof _ _ _ _ _ he, statements_at_eof _ _ he]
        simp [statement_instructions_eof _ he, statement_error_eof _ he]
      · have hcond : (current_token (mkP pre (a :: seg ++ term :: r) asm)).type ≠
            .END_OF_FILE := by
          rw [List.cons_append, current_token_mkP]
          exact hsegE a (List.mem_cons_self _ _)
        have hns : term.type ≠ .SEMICOLON := by rw [he]; simp
        refine ⟨a :: seg, term, r, rfl, he, hsegE, ?_⟩
        rw [statements_append (a :: seg) term r hseg hterm, if_neg hns]
        rw [parse_loop, if_pos hcond,
          parse_loop_body_eof pre (a :: seg) term r asm hseg he (by simp)]
        simp only [List.cons_append]
        cases hse : statement_error (a :: (seg ++ [term])) <;>
          simp [Option.toList, List.filterMap_cons, hse]

theorem parser_new_ok (toks : List Token) (h : ends_with_eof toks) :
    Parser.new toks = .ok (mkP [] toks []) := by
  obtain ⟨body, eof, rfl, heof⟩ := h
  have hb : back (body ++ [eof]) = eof := by simp [back]
  simp [Parser.new, hb, heof, mkP]

theorem parse_spec (toks : List Token) (h : ends_with_eof toks) :
    ∃ skipped t r1, toks = skipped ++ t :: r1 ∧ t.type = .END_OF_FILE ∧
      (∀ x ∈ skipped, x.type ≠ .END_OF_FILE) ∧
      parse (mkP [] toks []) =
        some (.ok (), mkP skipped (t :: r1)
          (prologue ++ (statements toks).flatMap statement_instructions ++ epilogue),
          (statements toks).filterMap statement_error) := by
  obtain ⟨skipped, t, r1, e1, e2, e3, e4⟩ :=
    parse_loop_spec toks.length [] toks prologue h (le_refl _)
  refine ⟨skipped, t, r1, e1, e2, e3, ?_⟩
  have hfuel : (emit "_start:" (emit "global _start"
      (emit "section .text" (mkP [] toks [])))).tokens.length -
      (emit "_start:" (emit "global _start"
        (emit "section .text" (mkP [] toks [])))).current_token_index = toks.length := by
    simp [emit, mkP]
  have hstate : emit "_start:" (emit "global _start"
      (emit "section .text" (mkP [] toks []))) = mkP [] toks prologue := by
    simp [emit_mkP, prologue]
  simp only [parse]
  rw [hfuel, hstate, e4]
  simp [emit_mkP, epilogue]

theorem parse_tokens_spec (toks : List Token) (h : ends_with_eof toks) :
    parse_tokens toks =
      some (.ok (),
        prologue ++ (statements toks).flatMap statement_instructions ++ epilogue,
        (statements toks).filterMap statement_error) := by
  obtain ⟨skipped, t, r1, _, _, _, e4⟩ := parse_spec toks h
  rw [parse_tokens, parser_new_ok toks h]
  simp only []
  rw [e4]
  rfl

theorem grammatical_statement_cases (st : List Token) (h : grammatical_statement st = true) :
    ∃ seg semi, st = seg ++ [semi] ∧ semi.type = .SEMICOLON ∧
      (∀ t ∈ seg, is_terminator t = false) ∧ statement_error st = none := by
  match st, h with
  | [i, s], h =>
    simp only [grammatical_statement, Bool.and_eq_true, decide_eq_true_eq] at h
    refine ⟨[i], s, rfl, h.2, ?_, ?_⟩
    · intro t ht
      rw [List.mem_singleton.mp ht, not_terminator_iff, h.1]; simp
    · simp [statement_error, semicolon_error, h.1, h.2]
  | [o, i, s], h =>
    simp only [grammatical_statement, Bool.and_eq_true, decide_eq_true_eq] at h
    obtain ⟨h1, h2, h3⟩ := h
    have ho : o.type ≠ .INTEGER_LITERAL ∧ o.type ≠ .SEMICOLON ∧ o.type ≠ .END_OF_FILE := by
      cases hh : o.type <;> simp [is_unary_operator, hh] at h1 <;> simp
    refine ⟨[o, i], s, rfl, h3, ?_, ?_⟩
    · intro t ht
      rcases List.mem_cons.mp ht with rfl | ht
      · rw [not_terminator_iff]; exact ⟨ho.2.1, ho.2.2⟩
      · rw [List.mem_singleton.mp ht, not_terminator_iff, h2]; simp
    · simp [statement_error, semicolon_error, ho.1, ho.2.2, h1, h2, h3]

theorem statements_grammatical (sts : List (List Token)) (rest : List Token)
    (hg : ∀ st ∈ sts, grammatical_statement st = true) :
    statements (sts.flatten ++ rest) = sts ++ statements rest := by
  induction sts with
  | nil => simp
  | cons st sts ih =>
    obtain ⟨seg, semi, rfl, h2, h3, _⟩ :=
      grammatical_statement_cases st (hg st (List.mem_cons_self _ _))
    have ih2 := ih (fun x hx => hg x (List.mem_cons_of_mem _ hx))
    have e : ((seg ++ [semi]) :: sts).flatten ++ rest =
        seg ++ semi :: (sts.flatten ++ rest) := by simp
    rw [e, statements_append seg semi _ h3 ((terminator_iff semi).mpr (Or.inl h2)),
      if_pos h2, ih2]
    simp

theorem statements_closed_cons (s : List Token) (semi : Token)
    (hs : ∀ x ∈ s, x.type ≠ .END_OF_FILE) (hsemi : semi.type = .SEMICOLON) :
    ∃ cs, cs ≠ [] ∧ ∀ rest, statements (s ++ semi :: rest) = cs ++ statements rest := by
  induction s with
  | nil =>
    refine ⟨[[semi]], by simp, fun rest => ?_⟩
    simp [statements, hsemi]
  | cons t s ih =>
    obtain ⟨cs, h1, h2⟩ := ih (fun x hx => hs x (List.mem_cons_of_mem _ hx))
    have hte := hs t (List.mem_cons_self _ _)
    by_cases hts : t.type = .SEMICOLON
    · refine ⟨[t] :: cs, by simp, fun rest => ?_⟩
      rw [List.cons_append, statements, if_neg hte, if_pos hts, h2]
      rfl
    · obtain ⟨c, cs', rfl⟩ := List.exists_cons_of_ne_nil h1
      refine ⟨(t :: c) :: cs', by simp, fun rest => ?_⟩
      rw [List.cons_append, statements, if_neg hte, if_neg hts, h2]
      rfl

theorem statements_closed (s : List Token) (h : closed_statements s) :
    ∃ cs, ∀ rest, statements (s ++ rest) = cs ++ statements rest := by
  obtain ⟨h1, h2⟩ := h
  rcases h2 with rfl | h2
  · exact ⟨[], fun rest => rfl⟩
  · have hne : s ≠ [] := by rintro rfl; simp at h2
    obtain ⟨s', semi, rfl⟩ : ∃ s' semi, s = s' ++ [semi] :=
      ⟨s.dropLast, s.getLast hne, (List.dropLast_append_getLast hne).symm⟩
    have hsemi : semi.type = .SEMICOLON := by simpa using h2
    obtain ⟨cs, _, h4⟩ := statements_closed_cons s' semi
      (fun x hx => h1 x (List.mem_append_left _ hx)) hsemi
    exact ⟨cs, fun rest => by simpa using h4 rest⟩

theorem ends_with_eof_append (a : List Token) (eof : Token)
    (heof : eof.type = .END_OF_FILE) : ends_with_eof (a ++ [eof]) :=
  ⟨a, eof, rfl, heof⟩

theorem statements_singleton_eof (eof : Token) (heof : eof.type = .END_OF_FILE) :
    statements [eof] = [[eof]] := statements_at_eof eof [] heof

theorem parse_tokens_grammatical (sts : List (List Token)) (eof : Token)
    (hg : ∀ st ∈ sts, grammatical_statement st = true)
    (heof : eof.type = TokenType.END_OF_FILE) :
    parse_tokens (sts.flatten ++ [eof]) =
      some (.ok (),
        ["section .text", "global _start", "_start:"] ++
          sts.flatMap statement_instructions ++
          ["", "  MOV RAX, 60", "  XOR RDI, RDI", "  SYSCALL"],
        []) := by
  rw [parse_tokens_spec _ (ends_with_eof_append _ eof heof),
    statements_grammatical sts [eof] hg, statements_singleton_eof eof heof]
  have herr : List.filterMap statement_error (sts ++ [[eof]]) = [] := by
    rw [List.filterMap_eq_nil_iff]
    intro st hst
    rcases List.mem_append.mp hst with hst | hst
    · obtain ⟨_, _, _, _, _, h⟩ := grammatical_statement_cases st (hg st hst)
      exact h
    · rw [List.mem_singleton.mp hst]; exact statement_error_eof eof heof
  rw [herr, List.flatMap_append]
  simp [statement_instructions_eof eof heof, prologue, epilogue]

/-! ## Claims about the parser -/

/-- C4: for every token sequence that is a concatenation of grammatical statements
followed by one END_OF_FILE, `parse` reports no syntax error and the assembly body
is the concatenation, in order, of the instructions of the statements: `PUSH <value>`
for a bare literal, `PUSH <value>` and then NEG, NOT or LNOT for a prefixed one. -/
theorem C4_valid_program_body (sts : List (List Token)) (eof : Token)
    (hg : ∀ st ∈ sts, grammatical_statement st = true)
    (heof : eof.type = TokenType.END_OF_FILE) :
    parse_tokens (sts.flatten ++ [eof]) =
      some (.ok (),
        ["section .text", "global _start", "_start:"] ++
          sts.flatMap statement_instructions ++
          ["", "  MOV RAX, 60", "  XOR RDI, RDI", "  SYSCALL"],
        []) :=
  parse_tokens_grammatical sts eof hg heof

/-- Witness of C4 on the tokens of `42; -1;`. -/
theorem C4_valid_program_body_witness :
    parse_tokens
        ([[⟨.INTEGER_LITERAL, "42", 1, 1⟩, ⟨.SEMICOLON, ";", 1, 3⟩],
          [⟨.OPERATOR_NEG, "-", 1, 5⟩, ⟨.INTEGER_LITERAL, "1", 1, 6⟩,
            ⟨.SEMICOLON, ";", 1, 7⟩]].flatten ++ [⟨.END_OF_FILE, "", 1, 8⟩]) =
      some (.ok (),
        ["section .text", "global _start", "_start:"] ++
          [[⟨.INTEGER_LITERAL, "42", 1, 1⟩, ⟨.SEMICOLON, ";", 1, 3⟩],
            [⟨.OPERATOR_NEG, "-", 1, 5⟩, ⟨.INTEGER_LITERAL, "1", 1, 6⟩,
              ⟨.SEMICOLON, ";", 1, 7⟩]].flatMap statement_instructions ++
          ["", "  MOV RAX, 60", "  XOR RDI, RDI", "  SYSCALL"],
        []) :=
  C4_valid_program_body _ ⟨.END_OF_FILE, "", 1, 8⟩ (by decide) (by decide)

/-- C5: error propagation is bounded to one statement. For every token list `s`
without END_OF_FILE that ends with SEMICOLON and every token list `t` (in particular
one without END_OF_FILE), the assembly body of `s ++ t ++ [eof]` is the body of
`s ++ [eof]` followed by the body of `t ++ [eof]`, whether or not `s` has malformed
statements; the reported errors concatenate in the same way. -/
theorem C5_error_propagation_bounded (s t : List Token) (eof : Token)
    (hs : ∀ x ∈ s, x.type ≠ TokenType.END_OF_FILE)
    (hsemi : s.getLast?.map Token.type = some TokenType.SEMICOLON)
    (heof : eof.type = TokenType.END_OF_FILE) :
    ∃ b1 b2 e1 e2,
      parse_tokens (s ++ [eof]) =
        some (.ok (), ["section .text", "global _start", "_start:"] ++ b1 ++
          ["", "  MOV RAX, 60", "  XOR RDI, RDI", "  SYSCALL"], e1) ∧
      parse_tokens (t ++ [eof]) =
        some (.ok (), ["section .text", "global _start", "_start:"] ++ b2 ++
          ["", "  MOV RAX, 60", "  XOR RDI, RDI", "  SYSCALL"], e2) ∧
      parse_tokens (s ++ t ++ [eof]) =
        some (.ok (), ["section .text", "global _start", "_start:"] ++ (b1 ++ b2) ++
          ["", "  MOV RAX, 60", "  XOR RDI, RDI", "  SYSCALL"], e1 ++ e2) := by
  obtain ⟨cs, hcs⟩ := statements_closed s ⟨hs, Or.inr hsemi⟩
  refine ⟨cs.flatMap statement_instructions,
    (statements (t ++ [eof])).flatMap statement_instructions,
    cs.filterMap statement_error, (statements (t ++ [eof])).filterMap statement_error,
    ?_, ?_, ?_⟩
  · rw [parse_tokens_spec _ (ends_with_eof_append _ eof heof), hcs,
      statements_singleton_eof eof heof]
    simp [statement_instructions_eof eof heof, statement_error_eof eof heof, prologue,
      epilogue]
  · rw [parse_tokens_spec _ (ends_with_eof_append _ eof heof)]
    simp [prologue, epilogue]
  · have e : s ++ t ++ [eof] = s ++ (t ++ [eof]) := List.append_assoc s t [eof]
    rw [parse_tokens_spec _ (ends_with_eof_append _ eof heof), e, hcs]
    simp [prologue, epilogue]

/-- Witness of C5 on the tokens of `abc; 7;`: the second statement still yields
`PUSH 7`. -/
theorem C5_error_propagation_bounded_witness :
    lex "abc; 7;" =
      some ([⟨.UNKNOWN, "a", 1, 1⟩, ⟨.UNKNOWN, "b", 1, 2⟩, ⟨.UNKNOWN, "c", 1, 3⟩,
          ⟨.SEMICOLON, ";", 1, 4⟩] ++
        [⟨.INTEGER_LITERAL, "7", 1, 6⟩, ⟨.SEMICOLON, ";", 1, 7⟩] ++
        [⟨.END_OF_FILE, "", 1, 8⟩]) ∧
    (∃ b1 b2 e1 e2,
      parse_tokens ([⟨.UNKNOWN, "a", 1, 1⟩, ⟨.UNKNOWN, "b", 1, 2⟩, ⟨.UNKNOWN, "c", 1, 3⟩,
          ⟨.SEMICOLON, ";", 1, 4⟩] ++ [⟨.END_OF_FILE, "", 1, 8⟩]) =
        some (.ok (), ["section .text", "global _start", "_start:"] ++ b1 ++
          ["", "  MOV RAX, 60", "  XOR RDI, RDI", "  SYSCALL"], e1) ∧
      parse_tokens ([⟨.INTEGER_LITERAL, "7", 1, 6⟩, ⟨.SEMICOLON, ";", 1, 7⟩] ++
          [⟨.END_OF_FILE, "", 1, 8⟩]) =
        some (.ok (), ["section .text", "global _start", "_start:"] ++ b2 ++
          ["", "  MOV RAX, 60", "  XOR RDI, RDI", "  SYSCALL"], e2) ∧
      parse_tokens ([⟨.UNKNOWN, "a", 1, 1⟩, ⟨.UNKNOWN, "b", 1, 2⟩, ⟨.UNKNOWN, "c", 1, 3⟩,
          ⟨.SEMICOLON, ";", 1, 4⟩] ++
          [⟨.INTEGER_LITERAL, "7", 1, 6⟩, ⟨.SEMICOLON, ";", 1, 7⟩] ++
          [⟨.END_OF_FILE, "", 1, 8⟩]) =
        some (.ok (), ["section .text", "global _start", "_start:"] ++ (b1 ++ b2) ++
          ["", "  MOV RAX, 60", "  XOR RDI, RDI", "  SYSCALL"], e1 ++ e2)) ∧
    compile "abc; 7;" =
      some (.ok (),
        ["section .text", "global _start", "_start:", "  PUSH 7", "", "  MOV RAX, 60",
          "  XOR RDI, RDI", "  SYSCALL"],
        [.unexpected_factor ⟨.UNKNOWN, "a", 1, 1⟩]) :=
  ⟨by decide,
   C5_error_propagation_bounded _ _ ⟨.END_OF_FILE, "", 1, 8⟩ (by decide) (by decide)
     (by decide),
   by decide⟩

/-- C6, counterexample: on the tokens of the source `42` the only statement has no
SEMICOLON and `parse` reports the syntax error, yet the body holds `PUSH 42`, while
the statements that conform to the grammar have no instruction at all: the program
is not the one made of the conforming statements only. -/
theorem C6_counterexample :
    lex "42" = some [⟨.INTEGER_LITERAL, "42", 1, 1⟩, ⟨.END_OF_FILE, "", 1, 3⟩] ∧
    parse_tokens [⟨.INTEGER_LITERAL, "42", 1, 1⟩, ⟨.END_OF_FILE, "", 1, 3⟩] =
      some (.ok (),
        ["section .text", "global _start", "_start:"] ++ ["  PUSH 42"] ++
          ["", "  MOV RAX, 60", "  XOR RDI, RDI", "  SYSCALL"],
        [.unexpected_token ⟨.END_OF_FILE, "", 1, 3⟩ .SEMICOLON]) ∧
    conforming_body [⟨.INTEGER_LITERAL, "42", 1, 1⟩, ⟨.END_OF_FILE, "", 1, 3⟩] = [] ∧
    parse_tokens [⟨.INTEGER_LITERAL, "42", 1, 1⟩, ⟨.END_OF_FILE, "", 1, 3⟩] ≠
      some (.ok (),
        ["section .text", "global _start", "_start:"] ++
          conforming_body [⟨.INTEGER_LITERAL, "42", 1, 1⟩, ⟨.END_OF_FILE, "", 1, 3⟩] ++
          ["", "  MOV RAX, 60", "  XOR RDI, RDI", "  SYSCALL"],
        [.unexpected_token ⟨.END_OF_FILE, "", 1, 3⟩ .SEMICOLON]) := by
  decide

/-- C6, amended: for every token sequence ending in END_OF_FILE the assembly body is
the concatenation, over the statements in order, of the instructions of the factor
each statement begins with. A statement reported for a token that is no factor or for
an operator without its literal contributes nothing; a statement that begins with a
factor contributes the instructions of the factor, also when the error of a missing
SEMICOLON is then reported for it. -/
theorem C6_body_is_leading_factors (toks : List Token) (h : ends_with_eof toks) :
    parse_tokens toks =
      some (.ok (),
        ["section .text", "global _start", "_start:"] ++
          (statements toks).flatMap statement_instructions ++
          ["", "  MOV RAX, 60", "  XOR RDI, RDI", "  SYSCALL"],
        (statements toks).filterMap statement_error) ∧
    (∀ st tok, (statement_error st = some (.unexpected_factor tok) ∨
        statement_error st = some (.unexpected_token tok .INTEGER_LITERAL)) →
      statement_instructions st = []) ∧
    (∀ st, grammatical_statement st = true → statement_error st = none) := by
  refine ⟨parse_tokens_spec toks h, ?_, ?_⟩
  · intro st tok hst
    rcases st with _ | ⟨t1, ts⟩
    · rfl
    · by_cases he : t1.type = .END_OF_FILE
      · simp [statement_error, he] at hst
      by_cases hi : t1.type = .INTEGER_LITERAL
      · rcases ts with _ | ⟨t2, ts⟩
        · simp [statement_error, he, hi, semicolon_error] at hst
        · by_cases h2 : t2.type = .SEMICOLON <;>
            simp [statement_error, he, hi, semicolon_error, h2] at hst
      · by_cases ho : is_unary_operator t1.type = true
        · rcases ts with _ | ⟨t2, ts⟩
          · simp [statement_instructions, hi, ho]
          · by_cases h2 : t2.type = .INTEGER_LITERAL
            · rcases ts with _ | ⟨t3, ts⟩
              · simp [statement_error, he, hi, ho, h2, semicolon_error] at hst
              · by_cases h3 : t3.type = .SEMICOLON <;>
                  simp [statement_error, he, hi, ho, h2, semicolon_error, h3] at hst
            · simp [statement_instructions, hi, ho, h2]
        · simp [statement_instructions, hi, ho]
  · intro st hst
    obtain ⟨_, _, _, _, _, e⟩ := grammatical_statement_cases st hst
    exact e

/-- Witness of the amended C6 on the tokens of `1 2; 3;`. -/
theorem C6_body_is_leading_factors_witness :
    ends_with_eof [⟨.INTEGER_LITERAL, "1", 1, 1⟩, ⟨.INTEGER_LITERAL, "2", 1, 3⟩,
      ⟨.SEMICOLON, ";", 1, 4⟩, ⟨.INTEGER_LITERAL, "3", 1, 6⟩, ⟨.SEMICOLON, ";", 1, 7⟩,
      ⟨.END_OF_FILE, "", 1, 8⟩] ∧
    parse_tokens [⟨.INTEGER_LITERAL, "1", 1, 1⟩, ⟨.INTEGER_LITERAL, "2", 1, 3⟩,
      ⟨.SEMICOLON, ";", 1, 4⟩, ⟨.INTEGER_LITERAL, "3", 1, 6⟩, ⟨.SEMICOLON, ";", 1, 7⟩,
      ⟨.END_OF_FILE, "", 1, 8⟩] =
      some (.ok (),
        ["section .text", "global _start", "_start:", "  PUSH 1", "  PUSH 3", "",
          "  MOV RAX, 60", "  XOR RDI, RDI", "  SYSCALL"],
        [.unexpected_token ⟨.INTEGER_LITERAL, "2", 1, 3⟩ .SEMICOLON]) :=
  ⟨⟨[⟨.INTEGER_LITERAL, "1", 1, 1⟩, ⟨.INTEGER_LITERAL, "2", 1, 3⟩,
      ⟨.SEMICOLON, ";", 1, 4⟩, ⟨.INTEGER_LITERAL, "3", 1, 6⟩, ⟨.SEMICOLON, ";", 1, 7⟩],
      ⟨.END_OF_FILE, "", 1, 8⟩, rfl, rfl⟩,
   (C6_body_is_leading_factors _
      ⟨[⟨.INTEGER_LITERAL, "1", 1, 1⟩, ⟨.INTEGER_LITERAL, "2", 1, 3⟩,
        ⟨.SEMICOLON, ";", 1, 4⟩, ⟨.INTEGER_LITERAL, "3", 1, 6⟩, ⟨.SEMICOLON, ";", 1, 7⟩],
        ⟨.END_OF_FILE, "", 1, 8⟩, rfl, rfl⟩).1.trans (by decide)⟩

/-- C7: a unary operator must be directly followed by an integer literal. Let a
statement `op :: m ++ [term]` begin with a unary operator `op` at a statement start
(after the whole statements `s`), and let its second token `x` (the head of
`m ++ [term]`) not be an INTEGER_LITERAL. Then `parse` reports for this statement
exactly the one error thrown by `expect_token(INTEGER_LITERAL)` at `x`, between the
errors of `s` and those of the tokens `r` that follow, emits no instruction for it, and
emits the instructions of `s` and of `r` as it does without the statement. (When the
statement ends at END_OF_FILE, nothing follows.) The message of that error is
`Syntax Error at line L, col C: Expected token type INTEGER_LITERAL but got K` with
the line `L`, the column `C` and the kind `K` of `x`, and the line written to
`std::cerr` is `Error during parsing: ` followed by this message. -/
theorem C7_operator_needs_literal (s m r : List Token) (op x term eof : Token)
    (hs : ∀ y ∈ s, y.type ≠ TokenType.END_OF_FILE)
    (hsemi : s = [] ∨ s.getLast?.map Token.type = some TokenType.SEMICOLON)
    (hop : is_unary_operator op.type = true)
    (hm : ∀ y ∈ m, y.type ≠ TokenType.SEMICOLON ∧ y.type ≠ TokenType.END_OF_FILE)
    (hterm : term.type = TokenType.SEMICOLON ∨ term.type = TokenType.END_OF_FILE)
    (hx : (m ++ [term]).head? = some x)
    (hxi : x.type ≠ TokenType.INTEGER_LITERAL)
    (heof : eof.type = TokenType.END_OF_FILE) :
    (∃ b1 b2 e1 e2,
      parse_tokens (s ++ [eof]) =
        some (.ok (), ["section .text", "global _start", "_start:"] ++ b1 ++
          ["", "  MOV RAX, 60", "  XOR RDI, RDI", "  SYSCALL"], e1) ∧
      parse_tokens (r ++ [eof]) =
        some (.ok (), ["section .text", "global _start", "_start:"] ++ b2 ++
          ["", "  MOV RAX, 60", "  XOR RDI, RDI", "  SYSCALL"], e2) ∧
      parse_tokens (s ++ (op :: m ++ [term]) ++ r ++ [eof]) =
        some (.ok (),
          ["section .text", "global _start", "_start:"] ++
            (b1 ++ if term.type = TokenType.SEMICOLON then b2 else []) ++
            ["", "  MOV RAX, 60", "  XOR RDI, RDI", "  SYSCALL"],
          e1 ++ [.unexpected_token x .INTEGER_LITERAL] ++
            if term.type = TokenType.SEMICOLON then e2 else [])) ∧
    (runtime_error.unexpected_token x TokenType.INTEGER_LITERAL).what =
      "Syntax Error at line " ++ toString x.line ++ ", col " ++ toString x.col ++
        ": Expected token type " ++ type_to_string TokenType.INTEGER_LITERAL ++
        " but got " ++ type_to_string x.type ∧
    error_during_parsing (runtime_error.unexpected_token x TokenType.INTEGER_LITERAL) =
      "Error during parsing: " ++
        ("Syntax Error at line " ++ toString x.line ++ ", col " ++ toString x.col ++
          ": Expected token type " ++ type_to_string TokenType.INTEGER_LITERAL ++
          " but got " ++ type_to_string x.type) := by
  refine ⟨?_, rfl, rfl⟩
  obtain ⟨cs, hcs⟩ := statements_closed s ⟨hs, hsemi⟩
  have hopt : is_terminator op = false := by
    rw [not_terminator_iff]
    cases hh : op.type <;> simp [is_unary_operator, hh] at hop <;> simp
  have hopi : op.type ≠ .INTEGER_LITERAL ∧ op.type ≠ .END_OF_FILE := by
    cases hh : op.type <;> simp [is_unary_operator, hh] at hop <;> simp
  have hseg : ∀ y ∈ op :: m, is_terminator y = false := by
    intro y hy
    rcases List.mem_cons.mp hy with rfl | hy
    · exact hopt
    · exact (not_terminator_iff y).mpr (hm y hy)
  have hterm2 : is_terminator term = true := (terminator_iff term).mpr hterm
  have herr : statement_error (op :: m ++ [term]) =
      some (.unexpected_token x .INTEGER_LITERAL) := by
    rcases m with _ | ⟨t2, m⟩
    · simp only [List.nil_append, List.head?_cons, Option.some.injEq] at hx
      subst hx
      simp [statement_error, hopi.2, hopi.1, hop, hxi]
    · simp only [List.cons_append, List.head?_cons, Option.some.injEq] at hx
      subst hx
      simp [statement_error, hopi.2, hopi.1, hop, hxi]
  have hcode : statement_instructions (op :: m ++ [term]) = [] := by
    rcases m with _ | ⟨t2, m⟩
    · simp only [List.nil_append, List.head?_cons, Option.some.injEq] at hx
      subst hx
      simp [statement_instructions, hopi.1, hop, hxi]
    · simp only [List.cons_append, List.head?_cons, Option.some.injEq] at hx
      subst hx
      simp [statement_instructions, hopi.1, hop, hxi]
  rw [List.cons_append] at herr hcode
  refine ⟨cs.flatMap statement_instructions,
    (statements (r ++ [eof])).flatMap statement_instructions,
    cs.filterMap statement_error, (statements (r ++ [eof])).filterMap statement_error,
    ?_, ?_, ?_⟩
  · rw [parse_tokens_spec _ (ends_with_eof_append _ eof heof), hcs,
      statements_singleton_eof eof heof]
    simp [statement_instructions_eof eof heof, statement_error_eof eof heof, prologue,
      epilogue]
  · rw [parse_tokens_spec _ (ends_with_eof_append _ eof heof)]
    simp [prologue, epilogue]
  · have e : s ++ (op :: m ++ [term]) ++ r ++ [eof] =
        s ++ ((op :: m) ++ term :: (r ++ [eof])) := by simp
    rw [parse_tokens_spec _ (ends_with_eof_append _ eof heof), e, hcs,
      statements_append (op :: m) term (r ++ [eof]) hseg hterm2]
    by_cases hts : term.type = .SEMICOLON
    · simp [hts, herr, hcode, prologue, epilogue, List.filterMap_cons]
    · simp [hts, herr, hcode, prologue, epilogue, List.filterMap_cons]

/-- Witness of C7 on the tokens of `~-2; 7;`: one error for the first statement, no
instruction for it, and `PUSH 7` for the second; the message of the error names
INTEGER_LITERAL as expected and OPERATOR_NEG at line 1, column 2 as found. -/
theorem C7_operator_needs_literal_witness :
    lex "~-2; 7;" =
      some ([] ++ (⟨.OPERATOR_BIT_NOT, "~", 1, 1⟩ ::
          [⟨.OPERATOR_NEG, "-", 1, 2⟩, ⟨.INTEGER_LITERAL, "2", 1, 3⟩] ++
          [⟨.SEMICOLON, ";", 1, 4⟩]) ++
        [⟨.INTEGER_LITERAL, "7", 1, 6⟩, ⟨.SEMICOLON, ";", 1, 7⟩] ++
        [⟨.END_OF_FILE, "", 1, 8⟩]) ∧
    ((∃ b1 b2 e1 e2,
      parse_tokens ([] ++ [⟨.END_OF_FILE, "", 1, 8⟩]) =
        some (.ok (), ["section .text", "global _start", "_start:"] ++ b1 ++
          ["", "  MOV RAX, 60", "  XOR RDI, RDI", "  SYSCALL"], e1) ∧
      parse_tokens ([⟨.INTEGER_LITERAL, "7", 1, 6⟩, ⟨.SEMICOLON, ";", 1, 7⟩] ++
          [⟨.END_OF_FILE, "", 1, 8⟩]) =
        some (.ok (), ["section .text", "global _start", "_start:"] ++ b2 ++
          ["", "  MOV RAX, 60", "  XOR RDI, RDI", "  SYSCALL"], e2) ∧
      parse_tokens ([] ++ (⟨.OPERATOR_BIT_NOT, "~", 1, 1⟩ ::
          [⟨.OPERATOR_NEG, "-", 1, 2⟩, ⟨.INTEGER_LITERAL, "2", 1, 3⟩] ++
          [⟨.SEMICOLON, ";", 1, 4⟩]) ++
          [⟨.INTEGER_LITERAL, "7", 1, 6⟩, ⟨.SEMICOLON, ";", 1, 7⟩] ++
          [⟨.END_OF_FILE, "", 1, 8⟩]) =
        some (.ok (),
          ["section .text", "global _start", "_start:"] ++
            (b1 ++ if (⟨.SEMICOLON, ";", 1, 4⟩ : Token).type = TokenType.SEMICOLON
              then b2 else []) ++
            ["", "  MOV RAX, 60", "  XOR RDI, RDI", "  SYSCALL"],
          e1 ++ [.unexpected_token ⟨.OPERATOR_NEG, "-", 1, 2⟩ .INTEGER_LITERAL] ++
            if (⟨.SEMICOLON, ";", 1, 4⟩ : Token).type = TokenType.SEMICOLON
              then e2 else [])) ∧
      (runtime_error.unexpected_token ⟨.OPERATOR_NEG, "-", 1, 2⟩
          TokenType.INTEGER_LITERAL).what =
        "Syntax Error at line " ++ toString (1 : Int) ++ ", col " ++ toString (2 : Int) ++
          ": Expected token type " ++ type_to_string TokenType.INTEGER_LITERAL ++
          " but got " ++ type_to_string TokenType.OPERATOR_NEG ∧
      error_during_parsing (runtime_error.unexpected_token ⟨.OPERATOR_NEG, "-", 1, 2⟩
          TokenType.INTEGER_LITERAL) =
        "Error during parsing: " ++
          ("Syntax Error at line " ++ toString (1 : Int) ++ ", col " ++
            toString (2 : Int) ++ ": Expected token type " ++
            type_to_string TokenType.INTEGER_LITERAL ++ " but got " ++
            type_to_string TokenType.OPERATOR_NEG)) ∧
    compile "~-2; 7;" =
      some (.ok (),
        ["section .text", "global _start", "_start:", "  PUSH 7", "", "  MOV RAX, 60",
          "  XOR RDI, RDI", "  SYSCALL"],
        [.unexpected_token ⟨.OPERATOR_NEG, "-", 1, 2⟩ .INTEGER_LITERAL]) ∧
    (runtime_error.unexpected_token ⟨.OPERATOR_NEG, "-", 1, 2⟩
        TokenType.INTEGER_LITERAL).what =
      "Syntax Error at line 1, col 2: Expected token type INTEGER_LITERAL but got OPERATOR_NEG" ∧
    error_during_parsing (runtime_error.unexpected_token ⟨.OPERATOR_NEG, "-", 1, 2⟩
        TokenType.INTEGER_LITERAL) =
      "Error during parsing: Syntax Error at line 1, col 2: Expected token type INTEGER_LITERAL but got OPERATOR_NEG" :=
  ⟨by decide,
   C7_operator_needs_literal [] _ _ _ _ _ ⟨.END_OF_FILE, "", 1, 8⟩ (by decide)
     (Or.inl rfl) (by decide) (by decide) (by decide) rfl (by decide) (by decide),
   by decide, by decide, by decide⟩

theorem statement_instructions_lines (st : List Token) :
    ∀ l ∈ statement_instructions st,
      (∃ v, l = "  PUSH " ++ v) ∨ l = "  NEG" ∨ l = "  NOT" ∨ l = "  LNOT" := by
  intro l hl
  rcases st with _ | ⟨t1, ts⟩
  · simp [statement_instructions] at hl
  · by_cases hi : t1.type = .INTEGER_LITERAL
    · simp only [statement_instructions, hi, if_true, List.mem_singleton] at hl
      exact Or.inl ⟨_, hl⟩
    · by_cases ho : is_unary_operator t1.type = true
      · rcases ts with _ | ⟨t2, ts⟩
        · simp [statement_instructions, hi, ho] at hl
        · by_cases h2 : t2.type = .INTEGER_LITERAL
          · simp only [statement_instructions, hi, ho, h2, if_true, if_false,
              List.mem_cons, List.mem_singleton, List.not_mem_nil, or_false] at hl
            rcases hl with hl | hl
            · exact Or.inl ⟨_, hl⟩
            · right
              rw [hl]
              unfold opcode
              split_ifs <;> simp
          · simp [statement_instructions, hi, ho, h2] at hl
      · simp [statement_instructions, hi, ho] at hl

theorem push_line_take (v : String) :
    ("  PUSH " ++ v).data.take 3 = [' ', ' ', 'P'] := by
  rw [String.data_append]; rfl

theorem ne_push_line (l v : String) (hl : l.data.take 3 ≠ [' ', ' ', 'P']) :
    l ≠ "  PUSH " ++ v := by
  intro h
  apply hl
  rw [h]
  exact push_line_take v

/-- The six fixed lines of the frame and the blank line are not lines of the body. -/
theorem frame_line_not_in_body (toks : List Token) (l : String)
    (hl : l ∈ ["section .text", "global _start", "_start:", "", "  MOV RAX, 60",
      "  XOR RDI, RDI", "  SYSCALL"]) :
    l ∉ (statements toks).flatMap statement_instructions := by
  intro hmem
  obtain ⟨st, _, hst⟩ := List.mem_flatMap.mp hmem
  have hne : l.data.take 3 ≠ [' ', ' ', 'P'] ∧ l ≠ "  NEG" ∧ l ≠ "  NOT" ∧ l ≠ "  LNOT" := by
    simp only [List.mem_cons, List.mem_singleton, List.not_mem_nil, or_false] at hl
    rcases hl with rfl | rfl | rfl | rfl | rfl | rfl | rfl <;> decide
  rcases statement_instructions_lines st l hst with ⟨v, hv⟩ | h | h | h
  · exact ne_push_line l v hne.1 hv
  · exact hne.2.1 h
  · exact hne.2.2.1 h
  · exact hne.2.2.2 h

/-- C9: for every token sequence ending in END_OF_FILE the program of one `parse`
call begins with the three lines of the prologue, its last three non-blank lines are
the exit sequence, and each of these six lines occurs exactly once in it. -/
theorem C9_prologue_and_epilogue_once (toks : List Token) (h : ends_with_eof toks) :
    ∃ asm errs, parse_tokens toks = some (.ok (), asm, errs) ∧
      asm.take 3 = ["section .text", "global _start", "_start:"] ∧
      (∃ init, asm.filter (fun l => decide (l ≠ "")) =
        init ++ ["  MOV RAX, 60", "  XOR RDI, RDI", "  SYSCALL"]) ∧
      ∀ l ∈ ["section .text", "global _start", "_start:", "  MOV RAX, 60",
          "  XOR RDI, RDI", "  SYSCALL"], asm.count l = 1 := by
  refine ⟨_, _, parse_tokens_spec toks h, ?_, ?_, ?_⟩
  · simp [prologue]
  · refine ⟨(prologue ++ (statements toks).flatMap statement_instructions).filter
      (fun l => decide (l ≠ "")), ?_⟩
    rw [List.filter_append]
    congr 1
  · intro l hl
    have hbody : List.count l ((statements toks).flatMap statement_instructions) = 0 := by
      apply List.count_eq_zero.mpr
      apply frame_line_not_in_body toks l
      simp only [List.mem_cons, List.mem_singleton, List.not_mem_nil, or_false] at hl ⊢
      rcases hl with h | h | h | h | h | h <;> simp [h]
    rw [List.count_append, List.count_append, hbody]
    simp only [List.mem_cons, List.mem_singleton, List.not_mem_nil, or_false] at hl
    rcases hl with rfl | rfl | rfl | rfl | rfl | rfl <;> decide

/-- Witness of C9 on the tokens of `abc; 7;`, a partially invalid input. -/
theorem C9_prologue_and_epilogue_once_witness :
    ∃ asm errs,
      parse_tokens [⟨.UNKNOWN, "a", 1, 1⟩, ⟨.UNKNOWN, "b", 1, 2⟩, ⟨.UNKNOWN, "c", 1, 3⟩,
        ⟨.SEMICOLON, ";", 1, 4⟩, ⟨.INTEGER_LITERAL, "7", 1, 6⟩, ⟨.SEMICOLON, ";", 1, 7⟩,
        ⟨.END_OF_FILE, "", 1, 8⟩] = some (.ok (), asm, errs) ∧
      asm.take 3 = ["section .text", "global _start", "_start:"] ∧
      (∃ init, asm.filter (fun l => decide (l ≠ "")) =
        init ++ ["  MOV RAX, 60", "  XOR RDI, RDI", "  SYSCALL"]) ∧
      ∀ l ∈ ["section .text", "global _start", "_start:", "  MOV RAX, 60",
          "  XOR RDI, RDI", "  SYSCALL"], asm.count l = 1 :=
  C9_prologue_and_epilogue_once _
    ⟨[⟨.UNKNOWN, "a", 1, 1⟩, ⟨.UNKNOWN, "b", 1, 2⟩, ⟨.UNKNOWN, "c", 1, 3⟩,
      ⟨.SEMICOLON, ";", 1, 4⟩, ⟨.INTEGER_LITERAL, "7", 1, 6⟩, ⟨.SEMICOLON, ";", 1, 7⟩],
      ⟨.END_OF_FILE, "", 1, 8⟩, rfl, rfl⟩

/-- C10: constructing a `Parser` fails, with `std::invalid_argument`, exactly when
the token sequence is empty or its last token is not END_OF_FILE. The failure is not
a `std::runtime_error` (the class of the syntax errors), it leaves no parser and so
no assembly line; a successful construction starts with an empty assembly. -/
theorem C10_constructor_contract (toks : List Token) :
    (Parser.new toks =
        .error (.invalid_argument "Token list must end with EOF token.") ↔
      (toks = [] ∨ ∃ t, toks.getLast? = some t ∧ t.type ≠ TokenType.END_OF_FILE)) ∧
    (Parser.new toks = .error (.invalid_argument "Token list must end with EOF token.") ∨
      Parser.new toks =
        .ok { tokens := toks, current_token_index := 0, assembly_output := [] }) ∧
    (∀ e : runtime_error, Parser.new toks ≠ .error (.runtime_error e)) ∧
    (∀ e, Parser.new toks = .error e → parse_tokens toks = some (.error e, [], [])) := by
  have hcases : Parser.new toks =
        .error (.invalid_argument "Token list must end with EOF token.") ∨
      Parser.new toks =
        .ok { tokens := toks, current_token_index := 0, assembly_output := [] } := by
    unfold Parser.new
    split_ifs
    · exact Or.inl rfl
    · exact Or.inr rfl
  refine ⟨?_, hcases, ?_, ?_⟩
  · rcases List.eq_nil_or_concat toks with rfl | ⟨body, last, rfl⟩
    · simp [Parser.new]
    · have hb : back (body ++ [last]) = last := by simp [back]
      by_cases hl : last.type = .END_OF_FILE
      · simp [Parser.new, hb, hl]
      · simp [Parser.new, hb, hl]
  · intro e he
    rcases hcases with h | h <;> rw [h] at he <;> simp at he
  · intro e he
    simp only [parse_tokens, he]

/-! ## Lexing an integer literal followed by a semicolon -/

theorem not_isspace_of_isdigit (c : Char) (h : isdigit c = true) : isspace c = false := by
  cases hs : isspace c with
  | false => rfl
  | true =>
    simp only [isspace, Bool.or_eq_true, decide_eq_true_eq] at hs
    rcases hs with ((((rfl | rfl) | rfl) | rfl) | rfl) | rfl <;> revert h <;> decide

theorem skip_whitespace_stay (lx : Lexer)
    (h : lx.current_pos < lx.source.length →
      isspace (char_at lx.source lx.current_pos) = false) :
    skip_whitespace lx = some lx := by
  have hc : ¬ (lx.current_pos < lx.source.length ∧ isspace (peek lx) = true) := by
    rintro ⟨h1, h2⟩
    rw [peek_of_lt lx h1, h h1] at h2
    exact Bool.noConfusion h2
  unfold skip_whitespace
  cases lx.source.length - lx.current_pos <;> rw [skip_whitespace_loop, if_neg hc]

theorem advance_of_ne_newline (lx : Lexer) (hlt : lx.current_pos < lx.source.length)
    (hc : char_at lx.source lx.current_pos ≠ '\n') :
    advance lx = (char_at lx.source lx.current_pos,
      ⟨lx.source, lx.current_pos + 1, lx.current_line, wrap_int (lx.current_col + 1)⟩) := by
  have hn : ¬ lx.current_pos ≥ lx.source.length := by omega
  simp only [advance, hn, if_false, hc]

theorem start_col_of_wf (lx : Lexer) (h : lx.wf) :
    wrap_int (wrap_int (lx.current_col + 1) - 1) = lx.current_col := by
  rw [h.2.2]; exact wrap_int_pred_succ _

theorem next_token_at_end (lx : Lexer) (hge : lx.source.length ≤ lx.current_pos) :
    next_token lx =
      some (⟨.END_OF_FILE, "", lx.current_line, lx.current_col⟩, lx, []) :=
  next_token_of_eof lx lx (skip_whitespace_stay lx (fun h => by omega)) hge

theorem next_token_single (lx : Lexer) (h : lx.wf)
    (hlt : lx.current_pos < lx.source.length)
    (hs : isspace (char_at lx.source lx.current_pos) = false)
    (hd : isdigit (char_at lx.source lx.current_pos) = false) :
    next_token lx =
      some (⟨classify (char_at lx.source lx.current_pos),
              String.singleton (char_at lx.source lx.current_pos),
              lx.current_line, lx.current_col⟩,
            ⟨lx.source, lx.current_pos + 1, lx.current_line,
              wrap_int (lx.current_col + 1)⟩,
            if classify (char_at lx.source lx.current_pos) = .UNKNOWN then
              [unknown_character_warning (char_at lx.source lx.current_pos)
                lx.current_line lx.current_col]
            else []) := by
  have ha := advance_of_ne_newline lx hlt (ne_newline_of_not_isspace _ hs)
  have hn := next_token_of_not_digit lx lx (skip_whitespace_stay lx (fun _ => hs)) hlt
    (by rw [ha]; exact hd)
  rw [hn, ha]
  simp only
  rw [start_col_of_wf lx h]

theorem next_token_integer (lx : Lexer) (j : Nat) (h : lx.wf)
    (hij : lx.current_pos < j) (hj : j ≤ lx.source.length)
    (hdig : ∀ i, lx.current_pos ≤ i → i < j → isdigit (char_at lx.source i) = true)
    (hend : j < lx.source.length → isdigit (char_at lx.source j) = false) :
    next_token lx =
      some (⟨.INTEGER_LITERAL, substr lx.source lx.current_pos (j - lx.current_pos),
              lx.current_line, lx.current_col⟩,
            ⟨lx.source, j, lx.current_line,
              wrap_int (lx.current_col + ((j - lx.current_pos : Nat) : Int))⟩, []) := by
  have hlt : lx.current_pos < lx.source.length := by omega
  have hd0 := hdig lx.current_pos (le_refl _) hij
  have hs := skip_whitespace_stay lx (fun _ => not_isspace_of_isdigit _ hd0)
  have ha := advance_of_ne_newline lx hlt (ne_newline_of_isdigit _ hd0)
  obtain ⟨_, _, _, _, _, a6⟩ := advance_spec lx h hlt
  obtain ⟨lx3, r1, r2, r3, r4, r5, r6, r7, r8⟩ :=
    read_integer_loop_spec _ (advance lx).2 a6 (le_refl _)
  have hw : lx3.current_pos ≤ lx3.source.length := r2.1
  have hd : isdigit (advance lx).1 = true := by rw [ha]; exact hd0
  rw [next_token_of_digit lx lx lx3 hs hlt hd r1]
  rw [ha] at r3 r4 r5 r6 r7 r8
  simp only at r3 r4 r5 r6 r7 r8
  have hpos : lx3.current_pos = j := by
    rcases Nat.lt_trichotomy lx3.current_pos j with hlt3 | heq | hgt3
    · have h1 := r8 (by omega)
      rw [hdig lx3.current_pos (by omega) hlt3] at h1
      exact Bool.noConfusion h1
    · exact heq
    · have h1 := r7 j (by omega) hgt3
      rw [r3] at hw
      rw [hend (by omega)] at h1
      exact Bool.noConfusion h1
  rw [ha]
  obtain ⟨src3, p3, l3, c3⟩ := lx3
  simp only at r3 r5 r6 hpos
  subst r3 hpos r5
  have hc : c3 = wrap_int (lx.current_col + ((p3 - lx.current_pos : Nat) : Int)) := by
    rw [r6, wrap_int_wrap_add]
    congr 1
    omega
  subst hc
  simp only
  rw [start_col_of_wf lx h]
  simp

theorem wf_of_next_token (lx lx1 : Lexer) (tok : Token) (w : List String) (h : lx.wf)
    (e : next_token lx = some (tok, lx1, w)) : lx1.wf := by
  obtain ⟨_, tok2, lx2, w2, _, n2, _, n4, _⟩ := next_token_spec lx h
  rw [e] at n2
  simp only [Option.some.injEq, Prod.mk.injEq] at n2
  rw [n2.2.1]; exact n4

theorem char_at_middle (s : String) (pre mid post : List Char)
    (hs : s.data = pre ++ mid ++ post) (i : Nat) (h1 : pre.length ≤ i)
    (h2 : i < pre.length + mid.length) : char_at s i ∈ mid := by
  unfold char_at
  rw [hs, List.append_assoc, List.getD_append_right _ _ _ _ h1,
    List.getD_append _ _ _ _ (by omega), List.getD_eq_getElem _ _ (by omega)]
  exact List.getElem_mem _

theorem char_at_after (s : String) (pre : List Char) (c : Char) (post : List Char)
    (hs : s.data = pre ++ c :: post) : char_at s pre.length = c := by
  unfold char_at
  rw [hs, List.getD_append_right _ _ _ _ (le_refl _)]
  simp

theorem substr_middle (s : String) (pre : List Char) (d : String) (post : List Char)
    (hs : s.data = pre ++ d.data ++ post) :
    substr s pre.length d.data.length = d := by
  unfold substr
  rw [hs, List.append_assoc, List.drop_left, List.take_left]

/-- The tokens of an integer literal `d` and a semicolon that end the source. -/
theorem tokenize_digits_semicolon (lx : Lexer) (pre : List Char) (d : String) (k : Nat)
    (h : lx.wf) (hd : d.data ≠ []) (hdig : ∀ c ∈ d.data, isdigit c = true)
    (hsrc : lx.source.data = pre ++ d.data ++ [';'])
    (hpos : lx.current_pos = pre.length) :
    tokenize_all_loop (k + 3) lx =
      some ([⟨.INTEGER_LITERAL, d, lx.current_line, lx.current_col⟩,
              ⟨.SEMICOLON, ";", lx.current_line,
                wrap_int (lx.current_col + (d.data.length : Nat))⟩,
              ⟨.END_OF_FILE, "", lx.current_line,
                wrap_int (wrap_int (lx.current_col + (d.data.length : Nat)) + 1)⟩],
            ⟨lx.source, pre.length + d.data.length + 1, lx.current_line,
              wrap_int (wrap_int (lx.current_col + (d.data.length : Nat)) + 1)⟩, []) := by
  have hlen : lx.source.length = pre.length + d.data.length + 1 := by
    show lx.source.data.length = _
    rw [hsrc]; simp only [List.length_append, List.length_singleton]
  have hdpos : 0 < d.data.length := List.length_pos.mpr hd
  have hsemi : char_at lx.source (pre.length + d.data.length) = ';' := by
    have := char_at_after lx.source (pre ++ d.data) ';' [] hsrc
    simpa using this
  -- the integer literal
  have e1 := next_token_integer lx (pre.length + d.data.length) h (by omega) (by omega)
    (fun i h1 h2 => hdig _ (char_at_middle lx.source pre d.data [';'] hsrc i (by omega) h2))
    (fun _ => by rw [hsemi]; decide)
  have hsub : substr lx.source lx.current_pos (pre.length + d.data.length - lx.current_pos)
      = d := by
    rw [hpos, Nat.add_sub_cancel_left]
    exact substr_middle lx.source pre d [';'] hsrc
  rw [hsub] at e1
  have hcast : pre.length + d.data.length - lx.current_pos = d.data.length := by omega
  rw [hcast] at e1
  -- the semicolon
  have e2 := next_token_single
    ⟨lx.source, pre.length + d.data.length, lx.current_line,
      wrap_int (lx.current_col + (d.data.length : Nat))⟩
    (wf_of_next_token _ _ _ _ h e1)
    (by show pre.length + d.data.length < lx.source.length; omega)
    (by show isspace (char_at lx.source (pre.length + d.data.length)) = false
        rw [hsemi]; decide)
    (by show isdigit (char_at lx.source (pre.length + d.data.length)) = false
        rw [hsemi]; decide)
  simp only [hsemi] at e2
  -- the end of the source
  have e3 := next_token_at_end
    ⟨lx.source, pre.length + d.data.length + 1, lx.current_line,
      wrap_int (wrap_int (lx.current_col + (d.data.length : Nat)) + 1)⟩
    (by show lx.source.length ≤ pre.length + d.data.length + 1; omega)
  simp only [tokenize_all_loop, e1, e2, e3]
  simp [classify]
  rfl

theorem lex_digits (d : String) (hd : d.data ≠ [])
    (hdig : ∀ c ∈ d.data, isdigit c = true) :
    lex (d ++ ";") =
      some [⟨.INTEGER_LITERAL, d, 1, 1⟩,
        ⟨.SEMICOLON, ";", 1, wrap_int (1 + (d.data.length : Nat))⟩,
        ⟨.END_OF_FILE, "", 1, wrap_int (wrap_int (1 + (d.data.length : Nat)) + 1)⟩] := by
  have hdpos : 0 < d.data.length := List.length_pos.mpr hd
  have hsrc : (Lexer.new (d ++ ";")).source.data = [] ++ d.data ++ [';'] := by
    show (d ++ ";").data = _
    rw [String.data_append]; rfl
  have hfuel : (Lexer.new (d ++ ";")).source.length -
      (Lexer.new (d ++ ";")).current_pos + 1 = (d.data.length - 1) + 3 := by
    show (d ++ ";").data.length - 0 + 1 = _
    rw [String.data_append]
    simp only [List.length_append]
    show d.data.length + 1 - 0 + 1 = _
    omega
  have e := tokenize_digits_semicolon (Lexer.new (d ++ ";")) [] d (d.data.length - 1)
    (wf_new _) hd hdig hsrc rfl
  unfold lex tokenize_all
  rw [hfuel, e]
  rfl

theorem lex_operator_digits (c : Char) (d : String)
    (hc : c = '-' ∨ c = '~' ∨ c = '!') (hd : d.data ≠ [])
    (hdig : ∀ c ∈ d.data, isdigit c = true) :
    lex (String.singleton c ++ d ++ ";") =
      some [⟨classify c, String.singleton c, 1, 1⟩,
        ⟨.INTEGER_LITERAL, d, 1, wrap_int (1 + 1)⟩,
        ⟨.SEMICOLON, ";", 1, wrap_int (wrap_int (1 + 1) + (d.data.length : Nat))⟩,
        ⟨.END_OF_FILE, "", 1,
          wrap_int (wrap_int (wrap_int (1 + 1) + (d.data.length : Nat)) + 1)⟩] := by
  have hdpos : 0 < d.data.length := List.length_pos.mpr hd
  have hdata : (String.singleton c ++ d ++ ";").data = [c] ++ d.data ++ [';'] := by
    rw [String.data_append, String.data_append]; rfl
  have hlen : (String.singleton c ++ d ++ ";").length = d.data.length + 2 := by
    show (String.singleton c ++ d ++ ";").data.length = _
    rw [hdata]; simp only [List.length_append, List.length_singleton]; omega
  have hc0 : char_at (String.singleton c ++ d ++ ";") 0 = c := by
    unfold char_at; rw [hdata]; rfl
  have hcs : isspace c = false ∧ isdigit c = false ∧ classify c ≠ .UNKNOWN := by
    rcases hc with rfl | rfl | rfl <;> decide
  have e0 := next_token_single (Lexer.new (String.singleton c ++ d ++ ";")) (wf_new _)
    (by show 0 < (String.singleton c ++ d ++ ";").length; omega)
    (by show isspace (char_at (String.singleton c ++ d ++ ";") 0) = false
        rw [hc0]; exact hcs.1)
    (by show isdigit (char_at (String.singleton c ++ d ++ ";") 0) = false
        rw [hc0]; exact hcs.2.1)
  have hw := wf_of_next_token _ _ _ _ (wf_new _) e0
  have e := tokenize_digits_semicolon _ [c] d (d.data.length - 1) hw hd hdig hdata rfl
  have hfuel : (Lexer.new (String.singleton c ++ d ++ ";")).source.length -
      (Lexer.new (String.singleton c ++ d ++ ";")).current_pos + 1 =
      ((d.data.length - 1) + 3) + 1 := by
    show (String.singleton c ++ d ++ ";").length - 0 + 1 = _
    rw [hlen]; omega
  have hne : (⟨classify (char_at (Lexer.new (String.singleton c ++ d ++ ";")).source
      (Lexer.new (String.singleton c ++ d ++ ";")).current_pos),
      String.singleton (char_at (Lexer.new (String.singleton c ++ d ++ ";")).source
        (Lexer.new (String.singleton c ++ d ++ ";")).current_pos),
      (Lexer.new (String.singleton c ++ d ++ ";")).current_line,
      (Lexer.new (String.singleton c ++ d ++ ";")).current_col⟩ : Token).type ≠
        .END_OF_FILE := classify_ne_eof _
  unfold lex tokenize_all
  rw [hfuel, tokenize_all_loop, e0]
  simp only []
  rw [if_pos hne, e]
  show some _ = some _
  have h1 : (Lexer.new (String.singleton c ++ d ++ ";")).source =
      String.singleton c ++ d ++ ";" := rfl
  have h2 : (Lexer.new (String.singleton c ++ d ++ ";")).current_pos = 0 := rfl
  simp only [h1, h2, hc0]
  simp [Lexer.new]

theorem compile_bare_literal (d : String) (hd : d.data ≠ [])
    (hdig : ∀ c ∈ d.data, isdigit c = true) :
    compile (d ++ ";") =
      some (.ok (),
        ["section .text", "global _start", "_start:"] ++ ["  PUSH " ++ d] ++
          ["", "  MOV RAX, 60", "  XOR RDI, RDI", "  SYSCALL"], []) := by
  unfold compile
  rw [lex_digits d hd hdig]
  exact parse_tokens_grammatical
    [[⟨.INTEGER_LITERAL, d, 1, 1⟩,
      ⟨.SEMICOLON, ";", 1, wrap_int (1 + (d.data.length : Nat))⟩]]
    ⟨.END_OF_FILE, "", 1, wrap_int (wrap_int (1 + (d.data.length : Nat)) + 1)⟩
    (by simp [grammatical_statement]) rfl

theorem compile_prefixed_literal (c : Char) (d : String)
    (hc : c = '-' ∨ c = '~' ∨ c = '!') (hd : d.data ≠ [])
    (hdig : ∀ c ∈ d.data, isdigit c = true) :
    compile (String.singleton c ++ d ++ ";") =
      some (.ok (),
        ["section .text", "global _start", "_start:"] ++
          ["  PUSH " ++ d, opcode (classify c)] ++
          ["", "  MOV RAX, 60", "  XOR RDI, RDI", "  SYSCALL"], []) := by
  have hop : is_unary_operator (classify c) = true := by
    rcases hc with rfl | rfl | rfl <;> decide
  have hni : classify c ≠ .INTEGER_LITERAL := by
    rcases hc with rfl | rfl | rfl <;> decide
  unfold compile
  rw [lex_operator_digits c d hc hd hdig]
  have h := parse_tokens_grammatical
    [[⟨classify c, String.singleton c, 1, 1⟩, ⟨.INTEGER_LITERAL, d, 1, wrap_int (1 + 1)⟩,
      ⟨.SEMICOLON, ";", 1, wrap_int (wrap_int (1 + 1) + (d.data.length : Nat))⟩]]
    ⟨.END_OF_FILE, "", 1,
      wrap_int (wrap_int (wrap_int (1 + 1) + (d.data.length : Nat)) + 1)⟩
    (by simp [grammatical_statement, hop]) rfl
  simp only [List.flatten, List.flatMap_cons, List.flatMap_nil, List.append_nil,
    statement_instructions, hni, hop, if_true, if_false, List.cons_append,
    List.nil_append] at h ⊢
  exact h

/-- C3: for every non-empty string `d` of ASCII digits, lexing and parsing the source
`d;` yields the body `PUSH d`, the source `-d;` the body `PUSH d`, `NEG`, the source
`~d;` the body `PUSH d`, `NOT`, and the source `!d;` the body `PUSH d`, `LNOT`, each
between the prologue and the blank line and exit sequence, and no syntax error is
reported in any of the four cases. -/
theorem C3_single_statement_programs (d : String) (hne : d ≠ "")
    (hdig : ∀ c ∈ d.data, isdigit c = true) :
    compile (d ++ ";") =
      some (.ok (),
        ["section .text", "global _start", "_start:"] ++ ["  PUSH " ++ d] ++
          ["", "  MOV RAX, 60", "  XOR RDI, RDI", "  SYSCALL"], []) ∧
    compile ("-" ++ d ++ ";") =
      some (.ok (),
        ["section .text", "global _start", "_start:"] ++ ["  PUSH " ++ d, "  NEG"] ++
          ["", "  MOV RAX, 60", "  XOR RDI, RDI", "  SYSCALL"], []) ∧
    compile ("~" ++ d ++ ";") =
      some (.ok (),
        ["section .text", "global _start", "_start:"] ++ ["  PUSH " ++ d, "  NOT"] ++
          ["", "  MOV RAX, 60", "  XOR RDI, RDI", "  SYSCALL"], []) ∧
    compile ("!" ++ d ++ ";") =
      some (.ok (),
        ["section .text", "global _start", "_start:"] ++ ["  PUSH " ++ d, "  LNOT"] ++
          ["", "  MOV RAX, 60", "  XOR RDI, RDI", "  SYSCALL"], []) := by
  have hd : d.data ≠ [] := by
    intro h
    apply hne
    cases d
    simp only at h
    subst h
    rfl
  exact ⟨compile_bare_literal d hd hdig,
    compile_prefixed_literal '-' d (Or.inl rfl) hd hdig,
    compile_prefixed_literal '~' d (Or.inr (Or.inl rfl)) hd hdig,
    compile_prefixed_literal '!' d (Or.inr (Or.inr rfl)) hd hdig⟩

/-- Witness of C3 on the digits `42`, with the four programs evaluated. -/
theorem C3_single_statement_programs_witness :
    (compile ("42" ++ ";") =
      some (.ok (),
        ["section .text", "global _start", "_start:"] ++ ["  PUSH " ++ "42"] ++
          ["", "  MOV RAX, 60", "  XOR RDI, RDI", "  SYSCALL"], []) ∧
    compile ("-" ++ "42" ++ ";") =
      some (.ok (),
        ["section .text", "global _start", "_start:"] ++ ["  PUSH " ++ "42", "  NEG"] ++
          ["", "  MOV RAX, 60", "  XOR RDI, RDI", "  SYSCALL"], []) ∧
    compile ("~" ++ "42" ++ ";") =
      some (.ok (),
        ["section .text", "global _start", "_start:"] ++ ["  PUSH " ++ "42", "  NOT"] ++
          ["", "  MOV RAX, 60", "  XOR RDI, RDI", "  SYSCALL"], []) ∧
    compile ("!" ++ "42" ++ ";") =
      some (.ok (),
        ["section .text", "global _start", "_start:"] ++ ["  PUSH " ++ "42", "  LNOT"] ++
          ["", "  MOV RAX, 60", "  XOR RDI, RDI", "  SYSCALL"], [])) ∧
    compile "-123;" =
      some (.ok (),
        ["section .text", "global _start", "_start:", "  PUSH 123", "  NEG", "",
          "  MOV RAX, 60", "  XOR RDI, RDI", "  SYSCALL"], []) :=
  ⟨C3_single_statement_programs "42" (by decide) (by decide), by decide⟩

/-! ## More about `next_token` -/

/-- The three ways `next_token` ends on a lexer whose counters are right: at the end
of the source, with an integer literal, or with a single character. -/
theorem next_token_cases (lx : Lexer) (h : lx.wf) :
    ∃ lx0 tok lx1 w, skip_whitespace lx = some lx0 ∧ next_token lx = some (tok, lx1, w) ∧
      lx0.wf ∧ lx1.wf ∧ lx0.source = lx.source ∧ lx1.source = lx.source ∧
      lx.current_pos ≤ lx0.current_pos ∧
      (∀ i, lx.current_pos ≤ i → i < lx0.current_pos →
        isspace (char_at lx.source i) = true) ∧
      tok.line = wrap_int (line_at lx.source lx0.current_pos) ∧
      tok.col = wrap_int (col_at lx.source lx0.current_pos) ∧
      ((tok.type = .END_OF_FILE ∧ tok.value = "" ∧ lx1 = lx0 ∧
          lx0.current_pos = lx.source.length ∧ w = []) ∨
       (tok.type = .INTEGER_LITERAL ∧ lx0.current_pos < lx1.current_pos ∧
          tok.value =
            substr lx.source lx0.current_pos (lx1.current_pos - lx0.current_pos) ∧
          (∀ i, lx0.current_pos ≤ i → i < lx1.current_pos →
            isdigit (char_at lx.source i) = true) ∧
          (lx1.current_pos < lx.source.length →
            isdigit (char_at lx.source lx1.current_pos) = false) ∧ w = []) ∨
       (tok.type = classify (char_at lx.source lx0.current_pos) ∧
          lx1.current_pos = lx0.current_pos + 1 ∧
          lx0.current_pos < lx.source.length ∧
          tok.value = String.singleton (char_at lx.source lx0.current_pos) ∧
          isspace (char_at lx.source lx0.current_pos) = false ∧
          isdigit (char_at lx.source lx0.current_pos) = false ∧
          w = if classify (char_at lx.source lx0.current_pos) = .UNKNOWN then
                [unknown_character_warning (char_at lx.source lx0.current_pos)
                  tok.line tok.col]
              else [])) := by
  obtain ⟨lx0, s1, s2, s3, s4, s5, s6⟩ := skip_whitespace_loop_spec _ lx h (le_refl _)
  have hs : skip_whitespace lx = some lx0 := s1
  have w0 := s2
  obtain ⟨w1, w2, w3⟩ := w0
  by_cases hge : lx0.current_pos ≥ lx0.source.length
  · refine ⟨lx0, _, lx0, [], hs, next_token_of_eof lx lx0 hs hge, s2, s2, s3, s3, s4, s5,
      ?_, ?_, Or.inl ⟨rfl, rfl, rfl, ?_, rfl⟩⟩
    · rw [← s3]; exact w2
    · rw [← s3]; exact w3
    · rw [← s3]; omega
  · have hlt : lx0.current_pos < lx0.source.length := by omega
    obtain ⟨a1, a2, a3, a4, a5, a6⟩ := advance_spec lx0 s2 hlt
    have hns : isspace (char_at lx0.source lx0.current_pos) = false := by
      rw [s3]; exact s6 (by rw [← s3]; exact hlt)
    have hnl := ne_newline_of_not_isspace _ hns
    simp only [hnl, if_false] at a4 a5
    cases hd : isdigit (advance lx0).1 with
    | true =>
      obtain ⟨lx3, r1, r2, r3, r4, r5, _, r7, r8⟩ :=
        read_integer_loop_spec _ (advance lx0).2 a6 (le_refl _)
      refine ⟨lx0, _, lx3, [], hs, next_token_of_digit lx lx0 lx3 hs hlt hd r1, s2, r2, s3,
        by rw [r3, a2, s3], s4, s5, ?_, ?_,
        Or.inr (Or.inl ⟨rfl, by omega, ?_, ?_, ?_, rfl⟩)⟩
      · show lx3.current_line = _
        rw [r5, a4, w2, s3]
      · show wrap_int ((advance lx0).2.current_col - 1) = _
        rw [a5, w3, s3]; exact wrap_int_pred_succ _
      · show substr _ _ _ = _
        rw [r3, a2, s3, a3]; simp
      · intro i h1 h2
        by_cases hi : i = lx0.current_pos
        · rw [hi, ← s3, ← a1]; exact hd
        · rw [a2, s3] at r7
          exact r7 i (by omega) h2
      · rw [a2, s3] at r8; exact r8
    | false =>
      have hc : (advance lx0).1 = char_at lx.source lx0.current_pos := by rw [a1, s3]
      refine ⟨lx0, _, (advance lx0).2, _, hs, next_token_of_not_digit lx lx0 hs hlt hd,
        s2, a6, s3, by rw [a2, s3], s4, s5, ?_, ?_,
        Or.inr (Or.inr ⟨?_, a3, by rw [← s3]; exact hlt, ?_, by rw [← s3]; exact hns,
          by rw [← hc]; exact hd, ?_⟩)⟩
      · show (advance lx0).2.current_line = _
        rw [a4, w2, s3]
      · show wrap_int ((advance lx0).2.current_col - 1) = _
        rw [a5, w3, s3]; exact wrap_int_pred_succ _
      · show classify _ = _
        rw [hc]
      · show String.singleton _ = _
        rw [hc]
      · simp only [hc]

theorem next_token_eof_inv (lx lx1 : Lexer) (tok : Token) (w : List String)
    (e : next_token lx = some (tok, lx1, w)) (ht : tok.type = .END_OF_FILE) :
    lx1.source.length ≤ lx1.current_pos ∧
      tok = ⟨.END_OF_FILE, "", lx1.current_line, lx1.current_col⟩ ∧ w = [] := by
  cases hs : skip_whitespace lx with
  | none => simp [next_token, hs] at e
  | some lx0 =>
    by_cases hge : lx0.current_pos ≥ lx0.source.length
    · rw [next_token_of_eof lx lx0 hs hge] at e
      simp only [Option.some.injEq, Prod.mk.injEq] at e
      obtain ⟨e1, e2, e3⟩ := e
      subst e2
      exact ⟨hge, e1.symm, e3.symm⟩
    · have hlt : lx0.current_pos < lx0.source.length := by omega
      cases hd : isdigit (advance lx0).1 with
      | false =>
        rw [next_token_of_not_digit lx lx0 hs hlt hd] at e
        simp only [Option.some.injEq, Prod.mk.injEq] at e
        rw [← e.1] at ht
        exact absurd ht (classify_ne_eof _)
      | true =>
        cases hr : read_integer_loop ((advance lx0).2.source.length -
            (advance lx0).2.current_pos) (advance lx0).2 with
        | none => simp [next_token, hs, hge, hd, read_integer, hr] at e
        | some lx3 =>
          rw [next_token_of_digit lx lx0 lx3 hs hlt hd hr] at e
          simp only [Option.some.injEq, Prod.mk.injEq] at e
          rw [← e.1] at ht
          exact TokenType.noConfusion ht

theorem nth_next_token_last (k : Nat) (lx lx1 : Lexer) (tok : Token) (w : List String)
    (e : nth_next_token k lx = some (tok, lx1, w)) :
    ∃ lx2, next_token lx2 = some (tok, lx1, w) := by
  induction k generalizing lx with
  | zero => exact ⟨lx, e⟩
  | succ k ih =>
    rw [nth_next_token] at e
    cases hn : next_token lx with
    | none => rw [hn] at e; exact Option.noConfusion e
    | some r =>
      obtain ⟨t, lx3, w3⟩ := r
      rw [hn] at e
      exact ih lx3 e

theorem nth_next_token_add (k n : Nat) (lx lx1 : Lexer) (tok : Token) (w : List String)
    (e : nth_next_token k lx = some (tok, lx1, w)) :
    nth_next_token (k + 1 + n) lx = nth_next_token n lx1 := by
  induction k generalizing lx with
  | zero =>
    have e2 : next_token lx = some (tok, lx1, w) := e
    have hk : 0 + 1 + n = n + 1 := by omega
    rw [hk, nth_next_token, e2]
  | succ k ih =>
    rw [nth_next_token] at e
    have hk : k + 1 + 1 + n = (k + 1 + n) + 1 := by omega
    rw [hk, nth_next_token]
    cases hn : next_token lx with
    | none => rw [hn] at e; exact Option.noConfusion e
    | some r =>
      obtain ⟨t, lx3, w3⟩ := r
      rw [hn] at e
      exact ih lx3 e

theorem nth_next_token_fixed (n : Nat) (lx : Lexer) (tok : Token)
    (e : next_token lx = some (tok, lx, [])) :
    nth_next_token n lx = some (tok, lx, []) := by
  induction n with
  | zero => exact e
  | succ n ih => rw [nth_next_token, e]; exact ih

theorem char_at_mem (s : String) (i : Nat) (h : i < s.length) : char_at s i ∈ s.data := by
  unfold char_at
  have h1 : i < s.data.length := h
  rw [List.getD_eq_getElem _ _ h1]
  exact List.getElem_mem _

/-! ## Claims about the end of the source and about single characters -/

/-- C11: END_OF_FILE is idempotent. Once a call of `next_token` on a source has
returned an END_OF_FILE token, every further call returns the same token (empty text,
same line and column), leaves the lexer as it is, with its cursor at the end of the
source, writes no warning and does not fail. -/
theorem C11_eof_idempotent (src : String) (k : Nat) (tok : Token) (lx1 : Lexer)
    (w : List String)
    (e : nth_next_token k (Lexer.new src) = some (tok, lx1, w))
    (ht : tok.type = TokenType.END_OF_FILE) :
    tok.value = "" ∧ lx1.source.length ≤ lx1.current_pos ∧
    (∀ n, nth_next_token n lx1 = some (tok, lx1, [])) ∧
    (∀ n, nth_next_token (k + 1 + n) (Lexer.new src) = some (tok, lx1, [])) := by
  obtain ⟨lx2, e2⟩ := nth_next_token_last k _ lx1 tok w e
  obtain ⟨h1, h2, _⟩ := next_token_eof_inv lx2 lx1 tok w e2 ht
  have h3 : next_token lx1 = some (tok, lx1, []) := by
    rw [next_token_at_end lx1 h1, ← h2]
  have h4 : ∀ n, nth_next_token n lx1 = some (tok, lx1, []) :=
    fun n => nth_next_token_fixed n lx1 tok h3
  refine ⟨by rw [h2], h1, h4, fun n => ?_⟩
  rw [nth_next_token_add k n _ lx1 tok w e]
  exact h4 n

/-- Witness of C11 on the source `7`: the second call returns END_OF_FILE, and so do
the calls after it. -/
theorem C11_eof_idempotent_witness :
    nth_next_token 1 (Lexer.new "7") =
      some (⟨.END_OF_FILE, "", 1, 2⟩, ⟨"7", 1, 1, 2⟩, []) ∧
    ((⟨.END_OF_FILE, "", 1, 2⟩ : Token).value = "" ∧
      (⟨"7", 1, 1, 2⟩ : Lexer).source.length ≤ (⟨"7", 1, 1, 2⟩ : Lexer).current_pos ∧
      (∀ n, nth_next_token n ⟨"7", 1, 1, 2⟩ =
        some (⟨.END_OF_FILE, "", 1, 2⟩, ⟨"7", 1, 1, 2⟩, [])) ∧
      (∀ n, nth_next_token (1 + 1 + n) (Lexer.new "7") =
        some (⟨.END_OF_FILE, "", 1, 2⟩, ⟨"7", 1, 1, 2⟩, []))) :=
  ⟨by decide, C11_eof_idempotent "7" 1 _ _ [] (by decide) rfl⟩

/-- C12: for every source made only of spaces, tabs, line feeds and carriage returns
(the empty source included), `tokenize_all` returns exactly one token, of kind
END_OF_FILE, and writes no warning. -/
theorem C12_whitespace_only_source (src : String)
    (h : ∀ c ∈ src.data, c = ' ' ∨ c = '\t' ∨ c = '\n' ∨ c = '\r') :
    ∃ tok lx, tokenize_all (Lexer.new src) = some ([tok], lx, []) ∧
      tok.type = TokenType.END_OF_FILE ∧ tok.value = "" := by
  have hws : ∀ i, i < src.length → isspace (char_at src i) = true := by
    intro i hi
    rcases h _ (char_at_mem src i hi) with e | e | e | e <;> rw [e] <;> decide
  obtain ⟨lx0, tok, lx1, w, _, n2, _, _, n5, _, _, _, _, _, n11⟩ :=
    next_token_cases (Lexer.new src) (wf_new src)
  have hsrc : (Lexer.new src).source = src := rfl
  rw [hsrc] at n11
  rcases n11 with ⟨t1, t2, _, _, t5⟩ | ⟨_, t2, _, t4, _, _⟩ | ⟨_, _, t3, _, t5, _, _⟩
  · refine ⟨tok, lx1, ?_, t1, t2⟩
    subst t5
    unfold tokenize_all
    rw [tokenize_all_loop, n2]
    simp [t1]
  · have hw := ‹lx1.wf›.1
    rw [‹lx1.source = (Lexer.new src).source›, hsrc] at hw
    have h1 := not_isspace_of_isdigit _ (t4 lx0.current_pos (le_refl _) t2)
    rw [hws lx0.current_pos (by omega)] at h1
    exact Bool.noConfusion h1
  · rw [hws _ t3] at t5
    exact Bool.noConfusion t5

/-- Witness of C12 on a source of one character of each of the four kinds. -/
theorem C12_whitespace_only_source_witness :
    ∃ tok lx, tokenize_all (Lexer.new " \t\n\r") = some ([tok], lx, []) ∧
      tok.type = TokenType.END_OF_FILE ∧ tok.value = "" :=
  C12_whitespace_only_source " \t\n\r" (by decide)

theorem lex_single_character (c : Char) (hs : isspace c = false)
    (hd : isdigit c = false) :
    lex (String.singleton c) =
      some [⟨classify c, String.singleton c, 1, 1⟩, ⟨.END_OF_FILE, "", 1, 2⟩] := by
  have hc0 : char_at (String.singleton c) 0 = c := rfl
  have hl : (String.singleton c).length = 1 := rfl
  have e0 := next_token_single (Lexer.new (String.singleton c)) (wf_new _)
    (by show 0 < (String.singleton c).length; omega)
    (by show isspace (char_at (String.singleton c) 0) = false; rw [hc0]; exact hs)
    (by show isdigit (char_at (String.singleton c) 0) = false; rw [hc0]; exact hd)
  have e1 := next_token_at_end ⟨String.singleton c, 1, 1, 1 + 1⟩
    (by show (String.singleton c).length ≤ 1; omega)
  have h1 : (Lexer.new (String.singleton c)).source = String.singleton c := rfl
  have h2 : (Lexer.new (String.singleton c)).current_pos = 0 := rfl
  have h3 : (Lexer.new (String.singleton c)).current_line = 1 := rfl
  have h4 : (Lexer.new (String.singleton c)).current_col = 1 := rfl
  simp only [h1, h2, h3, h4, hc0, Nat.zero_add] at e0
  have hw : wrap_int (1 + 1) = 1 + 1 := by decide
  rw [hw] at e0
  have hf : (Lexer.new (String.singleton c)).source.length -
      (Lexer.new (String.singleton c)).current_pos + 1 = 2 := by
    show (String.singleton c).length - 0 + 1 = 2
    omega
  unfold lex tokenize_all
  rw [hf, tokenize_all_loop, e0]
  simp only [ne_eq, classify_ne_eof, not_false_eq_true, if_true]
  rw [tokenize_all_loop, e1]
  simp

/-- C13, counterexample: the vertical tab is none of space, tab, line feed and
carriage return and is no digit, yet the source made of it gives one token only,
END_OF_FILE: `std::isspace` holds of it and `skip_whitespace` skips it. The form feed
behaves the same. -/
theorem C13_counterexample :
    (Char.ofNat 11 ≠ ' ' ∧ Char.ofNat 11 ≠ '\t' ∧ Char.ofNat 11 ≠ '\n' ∧
      Char.ofNat 11 ≠ '\r' ∧ isdigit (Char.ofNat 11) = false) ∧
    lex (String.singleton (Char.ofNat 11)) = some [⟨.END_OF_FILE, "", 1, 2⟩] ∧
    lex (String.singleton (Char.ofNat 12)) = some [⟨.END_OF_FILE, "", 1, 2⟩] := by
  decide

/-- C13, amended: for every character `c` that `std::isspace` does not hold of (it
holds of space, tab, line feed, carriage return, vertical tab and form feed) and that
is no ASCII digit, the source made of `c` gives exactly two tokens: the first has
the text `c`, line 1, column 1 and the kind OPERATOR_NEG for `-`, OPERATOR_BIT_NOT
for `~`, OPERATOR_LOG_NOT for `!`, SEMICOLON for `;` and UNKNOWN for any other
character; the second is END_OF_FILE. -/
theorem C13_single_character_classification (c : Char) (hs : isspace c = false)
    (hd : isdigit c = false) :
    ∃ kind, lex (String.singleton c) =
        some [⟨kind, String.singleton c, 1, 1⟩, ⟨.END_OF_FILE, "", 1, 2⟩] ∧
      (c = '-' → kind = TokenType.OPERATOR_NEG) ∧
      (c = '~' → kind = TokenType.OPERATOR_BIT_NOT) ∧
      (c = '!' → kind = TokenType.OPERATOR_LOG_NOT) ∧
      (c = ';' → kind = TokenType.SEMICOLON) ∧
      (c ≠ '-' → c ≠ '~' → c ≠ '!' → c ≠ ';' → kind = TokenType.UNKNOWN) := by
  refine ⟨classify c, lex_single_character c hs hd, ?_, ?_, ?_, ?_, ?_⟩
  · rintro rfl; rfl
  · rintro rfl; rfl
  · rintro rfl; rfl
  · rintro rfl; rfl
  · intro h1 h2 h3 h4
    simp [classify, h1, h2, h3, h4]

/-- Witness of the amended C13 on the character `a`, with the tokens evaluated. -/
theorem C13_single_character_classification_witness :
    (∃ kind, lex (String.singleton 'a') =
        some [⟨kind, String.singleton 'a', 1, 1⟩, ⟨.END_OF_FILE, "", 1, 2⟩] ∧
      ('a' = '-' → kind = TokenType.OPERATOR_NEG) ∧
      ('a' = '~' → kind = TokenType.OPERATOR_BIT_NOT) ∧
      ('a' = '!' → kind = TokenType.OPERATOR_LOG_NOT) ∧
      ('a' = ';' → kind = TokenType.SEMICOLON) ∧
      ('a' ≠ '-' → 'a' ≠ '~' → 'a' ≠ '!' → 'a' ≠ ';' → kind = TokenType.UNKNOWN)) ∧
    lex "a" = some [⟨.UNKNOWN, "a", 1, 1⟩, ⟨.END_OF_FILE, "", 1, 2⟩] ∧
    lex "~" = some [⟨.OPERATOR_BIT_NOT, "~", 1, 1⟩, ⟨.END_OF_FILE, "", 1, 2⟩] :=
  ⟨C13_single_character_classification 'a' (by decide) (by decide), by decide, by decide⟩

/-! ## Slices of the source -/

theorem forall2_get {α β : Type} (R : α → β → Prop) (l1 : List α) (l2 : List β)
    (h : List.Forall₂ R l1 l2) (i : Nat) (a : α) (b : β)
    (h1 : l1[i]? = some a) (h2 : l2[i]? = some b) : R a b := by
  induction h generalizing i with
  | nil => simp at h1
  | cons hab _ ih =>
    cases i with
    | zero =>
      simp only [List.getElem?_cons_zero, Option.some.injEq] at h1 h2
      subst h1 h2; exact hab
    | succ i =>
      simp only [List.getElem?_cons_succ] at h1 h2
      exact ih i h1 h2

theorem mem_substr (s : String) (a n : Nat) (c : Char) (h : c ∈ (substr s a n).data) :
    ∃ i, a ≤ i ∧ i < a + n ∧ i < s.length ∧ c = char_at s i := by
  have h1 : c ∈ (s.data.drop a).take n := h
  obtain ⟨k, hk, rfl⟩ := List.mem_iff_getElem.mp h1
  simp only [List.length_take, List.length_drop] at hk
  refine ⟨a + k, by omega, by omega, by show a + k < s.data.length; omega, ?_⟩
  unfold char_at
  rw [List.getD_eq_getElem _ _ (by omega)]
  simp

theorem drop_eq_substr_append (s : String) (a b : Nat) (h : a ≤ b) :
    s.data.drop a = (substr s a (b - a)).data ++ s.data.drop b := by
  have h1 : List.drop (b - a) (List.drop a s.data) = List.drop b s.data := by
    rw [List.drop_drop]
    congr 1
    omega
  show _ = List.take (b - a) (List.drop a s.data) ++ _
  rw [← h1, List.take_append_drop]

theorem classify_ne_integer (c : Char) : classify c ≠ .INTEGER_LITERAL := by
  unfold classify
  split_ifs <;> simp

/-- Where the cursor stands right after a digit, no digit follows it: the state of
the lexer between two tokens. -/
theorem integer_literals_loop (fuel : Nat) (lx : Lexer) (h : lx.wf)
    (hb : 0 < lx.current_pos → isdigit (char_at lx.source (lx.current_pos - 1)) = true →
      lx.current_pos < lx.source.length →
      isdigit (char_at lx.source lx.current_pos) = false)
    (hf : lx.source.length - lx.current_pos + 1 ≤ fuel) :
    ∃ toks lx1 ws offs, tokenize_all_loop fuel lx = some (toks, lx1, ws) ∧
      token_offsets_loop fuel lx = some offs ∧
      List.Forall₂ (fun (tok : Token) (off : Nat) =>
        tok.type = .INTEGER_LITERAL →
          tok.value.data ≠ [] ∧ (∀ c ∈ tok.value.data, isdigit c = true) ∧
          tok.value = substr lx.source off tok.value.length ∧
          (0 < off → isdigit (char_at lx.source (off - 1)) = false) ∧
          (off + tok.value.length < lx.source.length →
            isdigit (char_at lx.source (off + tok.value.length)) = false)) toks offs := by
  induction fuel generalizing lx with
  | zero => omega
  | succ n ih =>
    obtain ⟨lx0, tok, lx1, w, n1, n2, _, n4, _, n6, n7, n8, _, _, n11⟩ :=
      next_token_cases lx h
    have hle : lx1.current_pos ≤ lx.source.length := by rw [← n6]; exact n4.1
    rcases n11 with ⟨t1, _, _, _, _⟩ | ⟨t1, t2, t3, t4, t5, _⟩ | ⟨t1, t2, t3, _, _, t6, _⟩
    · refine ⟨[tok], lx1, w, [lx0.current_pos], ?_, ?_, ?_⟩
      · simp only [tokenize_all_loop, n2, t1, ne_eq, not_true_eq_false, if_false]
      · simp only [token_offsets_loop, n1, n2, t1, ne_eq, not_true_eq_false, if_false]
      · refine List.Forall₂.cons (fun hi => ?_) List.Forall₂.nil
        rw [t1] at hi; exact TokenType.noConfusion hi
    · have hne : tok.type ≠ .END_OF_FILE := by rw [t1]; simp
      have hlen : tok.value.length = lx1.current_pos - lx0.current_pos := by
        rw [t3]; exact length_substr _ _ _ (by omega)
      obtain ⟨toks, lx2, ws, offs, r1, r2, r3⟩ :=
        ih lx1 n4 (by intro _ _ h3; rw [n6] at h3 ⊢; exact t5 h3) (by rw [n6]; omega)
      refine ⟨tok :: toks, lx2, w ++ ws, lx0.current_pos :: offs, ?_, ?_, ?_⟩
      · simp only [tokenize_all_loop, n2, ne_eq, hne, not_false_eq_true, if_true, r1]
      · simp only [token_offsets_loop, n1, n2, ne_eq, hne, not_false_eq_true, if_true, r2]
      · rw [n6] at r3
        refine List.Forall₂.cons (fun _ => ⟨?_, ?_, ?_, ?_, ?_⟩) r3
        · intro he
          have : tok.value.length = 0 := by
            show tok.value.data.length = 0
            rw [he]; rfl
          omega
        · intro c hc
          rw [t3] at hc
          obtain ⟨i, i1, i2, _, rfl⟩ := mem_substr _ _ _ c hc
          exact t4 i i1 (by omega)
        · rw [hlen]; exact t3
        · intro hpos
          by_cases hskip : lx.current_pos < lx0.current_pos
          · have hw := n8 (lx0.current_pos - 1) (by omega) (by omega)
            cases hd : isdigit (char_at lx.source (lx0.current_pos - 1)) with
            | false => rfl
            | true =>
              rw [not_isspace_of_isdigit _ hd] at hw
              exact Bool.noConfusion hw
          · have heq : lx0.current_pos = lx.current_pos := by omega
            cases hd : isdigit (char_at lx.source (lx0.current_pos - 1)) with
            | false => rfl
            | true =>
              rw [heq] at hd hpos
              have h1 := hb hpos hd (by omega)
              rw [← heq, t4 lx0.current_pos (le_refl _) t2] at h1
              exact Bool.noConfusion h1
        · rw [hlen]
          intro hlt
          have e : lx0.current_pos + (lx1.current_pos - lx0.current_pos) =
              lx1.current_pos := by omega
          rw [e] at hlt ⊢
          exact t5 hlt
    · have hne : tok.type ≠ .END_OF_FILE := by rw [t1]; exact classify_ne_eof _
      obtain ⟨toks, lx2, ws, offs, r1, r2, r3⟩ :=
        ih lx1 n4
          (by intro _ h2 _
              rw [n6, t2, Nat.add_sub_cancel, t6] at h2
              exact Bool.noConfusion h2)
          (by rw [n6]; omega)
      refine ⟨tok :: toks, lx2, w ++ ws, lx0.current_pos :: offs, ?_, ?_, ?_⟩
      · simp only [tokenize_all_loop, n2, ne_eq, hne, not_false_eq_true, if_true, r1]
      · simp only [token_offsets_loop, n1, n2, ne_eq, hne, not_false_eq_true, if_true, r2]
      · rw [n6] at r3
        refine List.Forall₂.cons (fun hi => ?_) r3
        rw [t1] at hi
        exact absurd hi (classify_ne_integer _)

/-- C14: integer literals are lexed by maximal munch as raw text. For every source,
the text of every INTEGER_LITERAL token is a non-empty string of ASCII digits, it is
the slice of the source at the offset where the lexer found the token, the character
right before the slice (if there is one) and the character right after it (if there
is one) are no digits; leading zeros and long runs are kept as they are, as in the
evaluated source. -/
theorem C14_integer_literal_maximal_munch (src : String) :
    (∃ tokens offs, lex src = some tokens ∧ token_offsets src = some offs ∧
      tokens.length = offs.length ∧
      ∀ (i : Nat) (tok : Token) (off : Nat), tokens[i]? = some tok → offs[i]? = some off →
        tok.type = TokenType.INTEGER_LITERAL →
        tok.value.data ≠ [] ∧ (∀ c ∈ tok.value.data, isdigit c = true) ∧
        tok.value = substr src off tok.value.length ∧
        (0 < off → isdigit (char_at src (off - 1)) = false) ∧
        (off + tok.value.length < src.length →
          isdigit (char_at src (off + tok.value.length)) = false)) ∧
    lex "007 123456789012345678901234567890x" =
      some [⟨.INTEGER_LITERAL, "007", 1, 1⟩,
        ⟨.INTEGER_LITERAL, "123456789012345678901234567890", 1, 5⟩,
        ⟨.UNKNOWN, "x", 1, 35⟩, ⟨.END_OF_FILE, "", 1, 36⟩] := by
  refine ⟨?_, by decide⟩
  obtain ⟨toks, lx1, ws, offs, r1, r2, r3⟩ :=
    integer_literals_loop ((Lexer.new src).source.length - (Lexer.new src).current_pos + 1)
      (Lexer.new src) (wf_new src) (fun h0 => absurd h0 (by simp [Lexer.new])) (le_refl _)
  refine ⟨toks, offs, ?_, r2, r3.length_eq, ?_⟩
  · show (tokenize_all (Lexer.new src)).map (fun r => r.1) = some toks
    unfold tokenize_all
    rw [r1]; rfl
  · intro i tok off h1 h2 hi
    exact forall2_get _ toks offs r3 i tok off h1 h2 hi

theorem join_data (l : List String) :
    (String.join l).data = l.flatMap String.data := by
  have key : ∀ (l : List String) (acc : String),
      (l.foldl (fun r s => r ++ s) acc).data = acc.data ++ l.flatMap String.data := by
    intro l
    induction l with
    | nil => intro acc; simp
    | cons a l ih =>
      intro acc
      rw [List.foldl_cons, ih, String.data_append, List.flatMap_cons, List.append_assoc]
  have h := key l ""
  simpa [String.join] using h

theorem filter_whitespace_slice (s : String) (a b : Nat)
    (h : ∀ i, a ≤ i → i < b → isspace (char_at s i) = true) :
    (substr s a (b - a)).data.filter (fun c => !isspace c) = [] := by
  rw [List.filter_eq_nil_iff]
  intro c hc
  obtain ⟨i, i1, i2, _, rfl⟩ := mem_substr s a (b - a) c hc
  rw [h i i1 (by omega)]
  simp

theorem filter_token_slice (s : String) (a b : Nat)
    (h : ∀ i, a ≤ i → i < b → isspace (char_at s i) = false) :
    (substr s a (b - a)).data.filter (fun c => !isspace c) = (substr s a (b - a)).data := by
  rw [List.filter_eq_self]
  intro c hc
  obtain ⟨i, i1, i2, _, rfl⟩ := mem_substr s a (b - a) c hc
  rw [h i i1 (by omega)]
  rfl

/-- The texts of the tokens lexed from a cursor on are the characters from the
cursor on that are no whitespace. -/
theorem token_texts_loop (fuel : Nat) (lx : Lexer) (h : lx.wf)
    (hf : lx.source.length - lx.current_pos + 1 ≤ fuel) :
    ∃ toks lx1 ws, tokenize_all_loop fuel lx = some (toks, lx1, ws) ∧
      toks.flatMap (fun t => t.value.data) =
        (lx.source.data.drop lx.current_pos).filter (fun c => !isspace c) := by
  induction fuel generalizing lx with
  | zero => omega
  | succ n ih =>
    obtain ⟨lx0, tok, lx1, w, _, n2, _, n4, _, n6, n7, n8, _, _, n11⟩ :=
      next_token_cases lx h
    have hle : lx1.current_pos ≤ lx.source.length := by rw [← n6]; exact n4.1
    have hgap := filter_whitespace_slice lx.source lx.current_pos lx0.current_pos n8
    rw [drop_eq_substr_append lx.source lx.current_pos lx0.current_pos n7,
      List.filter_append, hgap, List.nil_append]
    rcases n11 with ⟨t1, t2, _, t4, _⟩ | ⟨t1, t2, t3, t4, _, _⟩ | ⟨t1, t2, t3, t4, t5, _, _⟩
    · refine ⟨[tok], lx1, w, ?_, ?_⟩
      · simp only [tokenize_all_loop, n2, t1, ne_eq, not_true_eq_false, if_false]
      · have hd : lx.source.data.drop lx0.current_pos = [] := by
          apply List.drop_eq_nil_of_le
          show lx.source.length ≤ _
          omega
        rw [hd, t4] at *
        simp [t2]
    · have hne : tok.type ≠ .END_OF_FILE := by rw [t1]; simp
      obtain ⟨toks, lx2, ws, r1, r2⟩ := ih lx1 n4 (by rw [n6]; omega)
      refine ⟨tok :: toks, lx2, w ++ ws, ?_, ?_⟩
      · simp only [tokenize_all_loop, n2, ne_eq, hne, not_false_eq_true, if_true, r1]
      · have hslice := filter_token_slice lx.source lx0.current_pos lx1.current_pos
          (fun i i1 i2 => not_isspace_of_isdigit _ (t4 i i1 i2))
        rw [drop_eq_substr_append lx.source lx0.current_pos lx1.current_pos (by omega),
          List.filter_append, hslice, List.flatMap_cons, r2, n6, t3]
    · have hne : tok.type ≠ .END_OF_FILE := by rw [t1]; exact classify_ne_eof _
      obtain ⟨toks, lx2, ws, r1, r2⟩ := ih lx1 n4 (by rw [n6]; omega)
      refine ⟨tok :: toks, lx2, w ++ ws, ?_, ?_⟩
      · simp only [tokenize_all_loop, n2, ne_eq, hne, not_false_eq_true, if_true, r1]
      · have hslice := filter_token_slice lx.source lx0.current_pos lx1.current_pos
          (fun i i1 i2 => by
            have : i = lx0.current_pos := by omega
            rw [this]; exact t5)
        have hval : tok.value = substr lx.source lx0.current_pos
            (lx1.current_pos - lx0.current_pos) := by
          rw [t4, t2, Nat.add_sub_cancel_left]
          exact (substr_one _ _ t3).symm
        rw [drop_eq_substr_append lx.source lx0.current_pos lx1.current_pos (by omega),
          List.filter_append, hslice, List.flatMap_cons, r2, n6, hval]

/-- C17: lexing loses nothing but whitespace. For every source, the texts of the
tokens of `tokenize_all`, joined in order, are the source without the characters that
the lexer skips as whitespace, those `std::isspace` holds of. -/
theorem C17_token_texts_are_source_without_whitespace (src : String) :
    ∃ tokens, lex src = some tokens ∧
      String.join (tokens.map Token.value) =
        String.mk (src.data.filter (fun c => !isspace c)) := by
  obtain ⟨toks, lx1, ws, r1, r2⟩ :=
    token_texts_loop ((Lexer.new src).source.length - (Lexer.new src).current_pos + 1)
      (Lexer.new src) (wf_new src) (le_refl _)
  refine ⟨toks, ?_, ?_⟩
  · show (tokenize_all (Lexer.new src)).map (fun r => r.1) = some toks
    unfold tokenize_all
    rw [r1]; rfl
  · have h1 : (String.join (toks.map Token.value)).data =
        src.data.filter (fun c => !isspace c) := by
      rw [join_data, List.flatMap_map]
      exact r2
    show String.mk (String.join (toks.map Token.value)).data = _
    rw [h1]

theorem parser_new_inv (toks : List Token) (p : Parser) (h : Parser.new toks = .ok p) :
    ends_with_eof toks ∧ p = mkP [] toks [] := by
  rcases List.eq_nil_or_concat toks with rfl | ⟨body, last, rfl⟩
  · simp [Parser.new] at h
  · simp only [List.concat_eq_append] at h ⊢
    have hb : back (body ++ [last]) = last := by simp [back]
    by_cases hl : last.type = .END_OF_FILE
    · have hends : ends_with_eof (body ++ [last]) := ⟨body, last, rfl, hl⟩
      rw [parser_new_ok _ hends] at h
      exact ⟨hends, (Except.ok.inj h).symm⟩
    · simp [Parser.new, hb, hl] at h

theorem semicolon_error_ne_consume (ts : List Token) :
    semicolon_error ts ≠ some .consume_past_end := by
  rcases ts with _ | ⟨t, ts⟩
  · simp [semicolon_error]
  · by_cases h : t.type = .SEMICOLON <;> simp [semicolon_error, h]

theorem statement_error_ne_consume (st : List Token) :
    statement_error st ≠ some .consume_past_end := by
  rcases st with _ | ⟨t1, ts⟩
  · simp [statement_error]
  · by_cases he : t1.type = .END_OF_FILE
    · simp [statement_error, he]
    by_cases hi : t1.type = .INTEGER_LITERAL
    · simpa [statement_error, he, hi] using semicolon_error_ne_consume ts
    by_cases ho : is_unary_operator t1.type = true
    · rcases ts with _ | ⟨t2, ts⟩
      · simp [statement_error, he, hi, ho]
      · by_cases h2 : t2.type = .INTEGER_LITERAL
        · simpa [statement_error, he, hi, ho, h2] using semicolon_error_ne_consume ts
        · simp [statement_error, he, hi, ho, h2]
    · simp [statement_error, he, hi, ho]

/-- C15: the consumption error is not reachable from user input. `consume_token`
throws `consume_past_end` exactly when it is called with the cursor at or past the
end, and an exception thrown during `parse` is either caught and recorded or leaves
`parse`. For every token sequence the constructor accepts, `parse` returns normally
and no recorded exception is `consume_past_end`; so does the parsing section of
`main`. -/
theorem C15_consumption_error_unreachable (toks : List Token) (p : Parser)
    (hnew : Parser.new toks = .ok p) :
    ∃ p1 errs, parse p = some (.ok (), p1, errs) ∧
      runtime_error.consume_past_end ∉ errs ∧
      parse_tokens toks = some (.ok (), p1.assembly_output, errs) := by
  obtain ⟨hends, rfl⟩ := parser_new_inv toks p hnew
  obtain ⟨skipped, t, r1, _, _, _, e4⟩ := parse_spec toks hends
  refine ⟨_, _, e4, ?_, ?_⟩
  · intro hmem
    obtain ⟨st, _, hst⟩ := List.mem_filterMap.mp hmem
    exact statement_error_ne_consume st hst
  · rw [parse_tokens_spec toks hends]; rfl

/-- Witness of C15 on a sequence with an END_OF_FILE before the last one. -/
theorem C15_consumption_error_unreachable_witness :
    Parser.new [⟨.INTEGER_LITERAL, "1", 1, 1⟩, ⟨.END_OF_FILE, "", 1, 2⟩,
        ⟨.OPERATOR_NEG, "-", 1, 3⟩, ⟨.END_OF_FILE, "", 1, 4⟩] =
      .ok ⟨[⟨.INTEGER_LITERAL, "1", 1, 1⟩, ⟨.END_OF_FILE, "", 1, 2⟩,
        ⟨.OPERATOR_NEG, "-", 1, 3⟩, ⟨.END_OF_FILE, "", 1, 4⟩], 0, []⟩ ∧
    ∃ p1 errs,
      parse ⟨[⟨.INTEGER_LITERAL, "1", 1, 1⟩, ⟨.END_OF_FILE, "", 1, 2⟩,
        ⟨.OPERATOR_NEG, "-", 1, 3⟩, ⟨.END_OF_FILE, "", 1, 4⟩], 0, []⟩ =
        some (.ok (), p1, errs) ∧
      runtime_error.consume_past_end ∉ errs ∧
      parse_tokens [⟨.INTEGER_LITERAL, "1", 1, 1⟩, ⟨.END_OF_FILE, "", 1, 2⟩,
        ⟨.OPERATOR_NEG, "-", 1, 3⟩, ⟨.END_OF_FILE, "", 1, 4⟩] =
        some (.ok (), p1.assembly_output, errs) :=
  ⟨by decide, C15_consumption_error_unreachable _ _ (by decide)⟩

theorem ends_with_eof_drop (toks : List Token) (i : Nat) (h : ends_with_eof toks)
    (hi : i < toks.length) : ends_with_eof (toks.drop i) := by
  obtain ⟨body, eof, rfl, heof⟩ := h
  have hle : i ≤ body.length := by
    simp only [List.length_append, List.length_singleton] at hi; omega
  exact ⟨body.drop i, eof, List.drop_append_of_le_length hle, heof⟩

theorem parser_eq_mkP (p : Parser) (h : p.current_token_index ≤ p.tokens.length) :
    p = mkP (p.tokens.take p.current_token_index) (p.tokens.drop p.current_token_index)
      p.assembly_output := by
  obtain ⟨toks, idx, asm⟩ := p
  simp only [mkP, List.take_append_drop, List.length_take]
  simp only at h
  rw [Nat.min_eq_left h]

/-- One pass through the loop body moves the cursor forward, whatever the position
of the cursor in a sequence that ends with END_OF_FILE. -/
theorem parse_loop_body_advances (pre rest : List Token) (asm : List String)
    (h : ends_with_eof rest)
    (hc : (current_token (mkP pre rest asm)).type ≠ .END_OF_FILE) :
    ∃ ctl p2 errs, parse_loop_body (mkP pre rest asm) = some (.ok ctl, p2, errs) ∧
      (mkP pre rest asm).current_token_index < p2.current_token_index ∧
      p2.current_token_index < p2.tokens.length ∧
      p2.tokens = pre ++ rest := by
  obtain ⟨seg, term, r, rfl, hseg, hterm, hr⟩ := split_statement rest h
  rcases (terminator_iff term).mp hterm with hs | he
  · obtain ⟨body, eof, hr1, _⟩ := hr hs
    have hrne : r ≠ [] := by rw [hr1]; simp
    obtain ⟨t, r', rfl⟩ := List.exists_cons_of_ne_nil hrne
    obtain ⟨ctl, b1, _⟩ := parse_loop_body_semicolon pre seg term t r' asm hseg hs
    refine ⟨ctl, _, _, b1, ?_, ?_, ?_⟩
    · simp only [mkP, List.length_append, List.length_singleton]; omega
    · simp only [mkP, List.length_append, List.length_singleton, List.length_cons]; omega
    · simp [mkP]
  · rcases seg with _ | ⟨a, seg⟩
    · rw [List.nil_append, current_token_mkP] at hc
      exact absurd he hc
    · refine ⟨.brk, _, _, parse_loop_body_eof pre (a :: seg) term r asm hseg he (by simp),
        ?_, ?_, ?_⟩
      · simp only [mkP, List.length_append, List.length_cons]; omega
      · simp only [mkP, List.length_append, List.length_cons]; omega
      · simp [mkP]

/-- C16: for every token sequence ending in END_OF_FILE, `parse` terminates. It
returns, with the cursor on the first END_OF_FILE token of the sequence; and a pass
through the body of its statement loop, from any cursor position where the loop
condition holds, ends without an exception and with the cursor moved forward by at
least one token (also when it ends with `break`). -/
theorem C16_parse_terminates (toks : List Token) (h : ends_with_eof toks) :
    (∃ p p1 errs t, Parser.new toks = .ok p ∧ parse p = some (.ok (), p1, errs) ∧
      p1.tokens = toks ∧ toks[p1.current_token_index]? = some t ∧
      current_token p1 = t ∧ t.type = TokenType.END_OF_FILE ∧
      ∀ (i : Nat) (x : Token), i < p1.current_token_index → toks[i]? = some x →
        x.type ≠ TokenType.END_OF_FILE) ∧
    (∀ p : Parser, p.tokens = toks → p.current_token_index < toks.length →
      (current_token p).type ≠ TokenType.END_OF_FILE →
      ∃ ctl p2 errs, parse_loop_body p = some (.ok ctl, p2, errs) ∧
        p.current_token_index < p2.current_token_index ∧
        p2.current_token_index < toks.length ∧ p2.tokens = toks) := by
  constructor
  · obtain ⟨skipped, t, r1, e1, e2, e3, e4⟩ := parse_spec toks h
    refine ⟨_, _, _, t, parser_new_ok toks h, e4, ?_, ?_, current_token_mkP _ _ _ _, e2,
      ?_⟩
    · rw [e1]; rfl
    · show toks[skipped.length]? = some t
      rw [e1, List.getElem?_append_right (le_refl _)]; simp
    · intro i x hi hx
      have hi2 : i < skipped.length := hi
      rw [e1, List.getElem?_append_left hi2] at hx
      exact e3 x (List.getElem?_mem hx)
  · intro p hp hidx hc
    have hle : p.current_token_index ≤ p.tokens.length := by rw [hp]; omega
    have hrest : ends_with_eof (p.tokens.drop p.current_token_index) := by
      rw [hp]; exact ends_with_eof_drop toks _ h hidx
    have hpe := parser_eq_mkP p hle
    rw [hpe] at hc
    obtain ⟨ctl, p2, errs, b1, b2, b3, b4⟩ :=
      parse_loop_body_advances _ _ p.assembly_output hrest hc
    rw [← hpe] at b1 b2
    rw [List.take_append_drop, hp] at b4
    rw [b4] at b3
    exact ⟨ctl, p2, errs, b1, b2, b3, b4⟩

/-- Witness of C16 on the tokens of `abc; 7` with a token after the first
END_OF_FILE: the cursor ends on the token of index 5. -/
theorem C16_parse_terminates_witness :
    (∃ p p1 errs t,
      Parser.new [⟨.UNKNOWN, "a", 1, 1⟩, ⟨.UNKNOWN, "b", 1, 2⟩, ⟨.UNKNOWN, "c", 1, 3⟩,
        ⟨.SEMICOLON, ";", 1, 4⟩, ⟨.INTEGER_LITERAL, "7", 1, 6⟩, ⟨.END_OF_FILE, "", 1, 7⟩,
        ⟨.SEMICOLON, ";", 1, 8⟩, ⟨.END_OF_FILE, "", 1, 9⟩] = .ok p ∧
      parse p = some (.ok (), p1, errs) ∧
      p1.tokens = [⟨.UNKNOWN, "a", 1, 1⟩, ⟨.UNKNOWN, "b", 1, 2⟩, ⟨.UNKNOWN, "c", 1, 3⟩,
        ⟨.SEMICOLON, ";", 1, 4⟩, ⟨.INTEGER_LITERAL, "7", 1, 6⟩, ⟨.END_OF_FILE, "", 1, 7⟩,
        ⟨.SEMICOLON, ";", 1, 8⟩, ⟨.END_OF_FILE, "", 1, 9⟩] ∧
      [⟨.UNKNOWN, "a", 1, 1⟩, ⟨.UNKNOWN, "b", 1, 2⟩, ⟨.UNKNOWN, "c", 1, 3⟩,
        ⟨.SEMICOLON, ";", 1, 4⟩, ⟨.INTEGER_LITERAL, "7", 1, 6⟩, ⟨.END_OF_FILE, "", 1, 7⟩,
        ⟨.SEMICOLON, ";", 1, 8⟩, ⟨.END_OF_FILE, "", 1, 9⟩][p1.current_token_index]? =
        some t ∧
      current_token p1 = t ∧ t.type = TokenType.END_OF_FILE ∧
      ∀ (i : Nat) (x : Token), i < p1.current_token_index →
        [⟨.UNKNOWN, "a", 1, 1⟩, ⟨.UNKNOWN, "b", 1, 2⟩, ⟨.UNKNOWN, "c", 1, 3⟩,
          ⟨.SEMICOLON, ";", 1, 4⟩, ⟨.INTEGER_LITERAL, "7", 1, 6⟩, ⟨.END_OF_FILE, "", 1, 7⟩,
          ⟨.SEMICOLON, ";", 1, 8⟩, ⟨.END_OF_FILE, "", 1, 9⟩][i]? = some x →
        x.type ≠ TokenType.END_OF_FILE) ∧
    (parse ⟨[⟨.UNKNOWN, "a", 1, 1⟩, ⟨.UNKNOWN, "b", 1, 2⟩, ⟨.UNKNOWN, "c", 1, 3⟩,
        ⟨.SEMICOLON, ";", 1, 4⟩, ⟨.INTEGER_LITERAL, "7", 1, 6⟩, ⟨.END_OF_FILE, "", 1, 7⟩,
        ⟨.SEMICOLON, ";", 1, 8⟩, ⟨.END_OF_FILE, "", 1, 9⟩], 0, []⟩).map
      (fun r => r.2.1.current_token_index) = some 5 :=
  ⟨(C16_parse_terminates _
      ⟨[⟨.UNKNOWN, "a", 1, 1⟩, ⟨.UNKNOWN, "b", 1, 2⟩, ⟨.UNKNOWN, "c", 1, 3⟩,
        ⟨.SEMICOLON, ";", 1, 4⟩, ⟨.INTEGER_LITERAL, "7", 1, 6⟩, ⟨.END_OF_FILE, "", 1, 7⟩,
        ⟨.SEMICOLON, ";", 1, 8⟩], ⟨.END_OF_FILE, "", 1, 9⟩, rfl, rfl⟩).1,
   by decide⟩

theorem statement_instructions_shape (st : List Token) :
    statement_instructions st = [] ∨
    (∃ v, statement_instructions st = ["  PUSH " ++ v]) ∨
    (∃ v o, statement_instructions st = ["  PUSH " ++ v, o] ∧
      (o = "  NEG" ∨ o = "  NOT" ∨ o = "  LNOT")) := by
  rcases st with _ | ⟨t1, ts⟩
  · left; rfl
  · by_cases hi : t1.type = .INTEGER_LITERAL
    · right; left
      exact ⟨t1.value, by simp [statement_instructions, hi]⟩
    · by_cases ho : is_unary_operator t1.type = true
      · rcases ts with _ | ⟨t2, ts⟩
        · left; simp [statement_instructions, hi, ho]
        · by_cases h2 : t2.type = .INTEGER_LITERAL
          · right; right
            refine ⟨t2.value, opcode t1.type, by simp [statement_instructions, hi, ho, h2],
              ?_⟩
            unfold opcode
            split_ifs <;> simp
          · left; simp [statement_instructions, hi, ho, h2]
      · left; simp [statement_instructions, hi, ho]

theorem push_line_ne_opcode (v l : String)
    (hl : l = "  NEG" ∨ l = "  NOT" ∨ l = "  LNOT") : l ≠ "  PUSH " ++ v := by
  apply ne_push_line
  rcases hl with rfl | rfl | rfl <;> decide

/-- In the instructions of a list of statements every opcode line stands right after
a `PUSH` line. -/
theorem opcode_after_push (sts : List (List Token)) (before : List String) (l : String)
    (after : List String)
    (h : sts.flatMap statement_instructions = before ++ l :: after)
    (hl : l = "  NEG" ∨ l = "  NOT" ∨ l = "  LNOT") :
    ∃ before1 v, before = before1 ++ ["  PUSH " ++ v] := by
  induction sts generalizing before with
  | nil => simp at h
  | cons st sts ih =>
    rw [List.flatMap_cons] at h
    rcases statement_instructions_shape st with e | ⟨v, e⟩ | ⟨v, o, e, _⟩
    · rw [e, List.nil_append] at h
      exact ih before h
    · rw [e, List.singleton_append] at h
      rcases List.cons_eq_append_iff.mp h with ⟨_, h2⟩ | ⟨a, h1, h2⟩
      · have := (List.cons.inj h2).1
        exact absurd this (push_line_ne_opcode v l hl)
      · obtain ⟨b1, v1, hb⟩ := ih a h2
        exact ⟨("  PUSH " ++ v) :: b1, v1, by rw [h1, hb]; rfl⟩
    · rw [e] at h
      rcases List.cons_eq_append_iff.mp h with ⟨_, h2⟩ | ⟨a, h1, h2⟩
      · have := (List.cons.inj h2).1
        exact absurd this (push_line_ne_opcode v l hl)
      · rcases List.cons_eq_append_iff.mp h2 with ⟨h3, _⟩ | ⟨a2, h3, h4⟩
        · exact ⟨[], v, by rw [h1, h3]; rfl⟩
        · obtain ⟨b1, v1, hb⟩ := ih a2 h4
          exact ⟨("  PUSH " ++ v) :: o :: b1, v1, by rw [h1, h3, hb]; rfl⟩

/-- C19: for every token sequence ending in END_OF_FILE, every line of the assembly
body is a `PUSH` line or one of NEG, NOT, LNOT, and wherever one of NEG, NOT, LNOT
stands in the body, the line right before it is a `PUSH` line. -/
theorem C19_opcodes_follow_push (toks : List Token) (h : ends_with_eof toks) :
    ∃ body errs,
      parse_tokens toks =
        some (.ok (), ["section .text", "global _start", "_start:"] ++ body ++
          ["", "  MOV RAX, 60", "  XOR RDI, RDI", "  SYSCALL"], errs) ∧
      (∀ l ∈ body, (∃ v, l = "  PUSH " ++ v) ∨ l = "  NEG" ∨ l = "  NOT" ∨ l = "  LNOT") ∧
      ∀ (before : List String) (l : String) (after : List String),
        body = before ++ l :: after → (l = "  NEG" ∨ l = "  NOT" ∨ l = "  LNOT") →
        ∃ before1 v, before = before1 ++ ["  PUSH " ++ v] := by
  refine ⟨(statements toks).flatMap statement_instructions, _, parse_tokens_spec toks h,
    ?_, ?_⟩
  · intro l hl
    obtain ⟨st, _, hst⟩ := List.mem_flatMap.mp hl
    exact statement_instructions_lines st l hst
  · intro before l after hb hl
    exact opcode_after_push (statements toks) before l after hb hl

/-- Witness of C19 on the tokens of `-1 2; ~; !3;`. -/
theorem C19_opcodes_follow_push_witness :
    (∃ body errs,
      parse_tokens [⟨.OPERATOR_NEG, "-", 1, 1⟩, ⟨.INTEGER_LITERAL, "1", 1, 2⟩,
        ⟨.INTEGER_LITERAL, "2", 1, 4⟩, ⟨.SEMICOLON, ";", 1, 5⟩,
        ⟨.OPERATOR_BIT_NOT, "~", 1, 7⟩, ⟨.SEMICOLON, ";", 1, 8⟩,
        ⟨.OPERATOR_LOG_NOT, "!", 1, 10⟩, ⟨.INTEGER_LITERAL, "3", 1, 11⟩,
        ⟨.SEMICOLON, ";", 1, 12⟩, ⟨.END_OF_FILE, "", 1, 13⟩] =
        some (.ok (), ["section .text", "global _start", "_start:"] ++ body ++
          ["", "  MOV RAX, 60", "  XOR RDI, RDI", "  SYSCALL"], errs) ∧
      (∀ l ∈ body, (∃ v, l = "  PUSH " ++ v) ∨ l = "  NEG" ∨ l = "  NOT" ∨ l = "  LNOT") ∧
      ∀ (before : List String) (l : String) (after : List String),
        body = before ++ l :: after → (l = "  NEG" ∨ l = "  NOT" ∨ l = "  LNOT") →
        ∃ before1 v, before = before1 ++ ["  PUSH " ++ v]) ∧
    parse_tokens [⟨.OPERATOR_NEG, "-", 1, 1⟩, ⟨.INTEGER_LITERAL, "1", 1, 2⟩,
        ⟨.INTEGER_LITERAL, "2", 1, 4⟩, ⟨.SEMICOLON, ";", 1, 5⟩,
        ⟨.OPERATOR_BIT_NOT, "~", 1, 7⟩, ⟨.SEMICOLON, ";", 1, 8⟩,
        ⟨.OPERATOR_LOG_NOT, "!", 1, 10⟩, ⟨.INTEGER_LITERAL, "3", 1, 11⟩,
        ⟨.SEMICOLON, ";", 1, 12⟩, ⟨.END_OF_FILE, "", 1, 13⟩] =
      some (.ok (),
        ["section .text", "global _start", "_start:", "  PUSH 1", "  NEG", "  PUSH 3",
          "  LNOT", "", "  MOV RAX, 60", "  XOR RDI, RDI", "  SYSCALL"],
        [.unexpected_token ⟨.INTEGER_LITERAL, "2", 1, 4⟩ .SEMICOLON,
          .unexpected_token ⟨.SEMICOLON, ";", 1, 8⟩ .INTEGER_LITERAL]) :=
  ⟨C19_opcodes_follow_push _
      ⟨[⟨.OPERATOR_NEG, "-", 1, 1⟩, ⟨.INTEGER_LITERAL, "1", 1, 2⟩,
        ⟨.INTEGER_LITERAL, "2", 1, 4⟩, ⟨.SEMICOLON, ";", 1, 5⟩,
        ⟨.OPERATOR_BIT_NOT, "~", 1, 7⟩, ⟨.SEMICOLON, ";", 1, 8⟩,
        ⟨.OPERATOR_LOG_NOT, "!", 1, 10⟩, ⟨.INTEGER_LITERAL, "3", 1, 11⟩,
        ⟨.SEMICOLON, ";", 1, 12⟩], ⟨.END_OF_FILE, "", 1, 13⟩, rfl, rfl⟩,
   by decide⟩

theorem push_operand_push (v : String) : push_operand ("  PUSH " ++ v) = some v := by
  have h7 : ("  PUSH " : String).data.length = 7 := rfl
  have h1 : ("  PUSH " ++ v).data.take 7 = "  PUSH ".data := by
    rw [String.data_append]
    exact List.take_left' h7
  have h2 : ("  PUSH " ++ v).data.drop 7 = v.data := by
    rw [String.data_append]
    exact List.drop_left' h7
  rw [push_operand, if_pos h1, h2]

theorem push_operand_opcode (ty : TokenType) : push_operand (opcode ty) = none := by
  unfold opcode
  split_ifs <;> decide

theorem statements_flatten (toks : List Token) :
    ∃ rest, toks = (statements toks).flatten ++ rest := by
  induction toks with
  | nil => exact ⟨[], rfl⟩
  | cons t ts ih =>
    obtain ⟨rest, hr⟩ := ih
    by_cases he : t.type = .END_OF_FILE
    · exact ⟨ts, by simp [statements, he]⟩
    · by_cases hs : t.type = .SEMICOLON
      · refine ⟨rest, ?_⟩
        rw [statements, if_neg he, if_pos hs]
        simp only [List.flatten_cons, List.singleton_append, List.cons_append,
          List.nil_append]
        rw [← hr]
      · rw [statements, if_neg he, if_neg hs]
        cases hst : statements ts with
        | nil =>
          rw [hst] at hr
          exact ⟨rest, by simp only [List.flatten_cons, List.flatten_nil, List.append_nil,
            List.singleton_append]; rw [hr]; rfl⟩
        | cons st sts =>
          rw [hst] at hr
          refine ⟨rest, ?_⟩
          simp only [List.flatten_cons, List.cons_append] at hr ⊢
          rw [← hr]

theorem statement_operands_sublist (st : List Token) :
    List.Sublist ((statement_instructions st).filterMap push_operand)
      ((st.filter (fun t => decide (t.type = .INTEGER_LITERAL))).map Token.value) := by
  rcases st with _ | ⟨t1, ts⟩
  · simp [statement_instructions]
  · by_cases hi : t1.type = .INTEGER_LITERAL
    · simp only [statement_instructions, hi, if_true, List.filterMap_cons,
        push_operand_push, List.filterMap_nil, List.filter_cons, decide_True,
        List.map_cons]
      exact List.Sublist.cons₂ _ (List.nil_sublist _)
    · by_cases ho : is_unary_operator t1.type = true
      · rcases ts with _ | ⟨t2, ts⟩
        · simp [statement_instructions, hi, ho]
        · by_cases h2 : t2.type = .INTEGER_LITERAL
          · simp only [statement_instructions, hi, ho, h2, if_true, if_false,
              List.filterMap_cons, push_operand_push, push_operand_opcode,
              List.filterMap_nil, List.filter_cons, decide_True, decide_False,
              List.map_cons]
            exact List.Sublist.cons₂ _ (List.nil_sublist _)
          · simp [statement_instructions, hi, ho, h2]
      · simp [statement_instructions, hi, ho]

theorem sublist_flatMap {α β : Type} (l : List α) (f g : α → List β)
    (h : ∀ a ∈ l, List.Sublist (f a) (g a)) :
    List.Sublist (l.flatMap f) (l.flatMap g) := by
  induction l with
  | nil => exact List.Sublist.refl _
  | cons a l ih =>
    rw [List.flatMap_cons, List.flatMap_cons]
    exact List.Sublist.append (h a (List.mem_cons_self _ _))
      (ih (fun x hx => h x (List.mem_cons_of_mem _ hx)))

theorem flatMap_filter_map (sts : List (List Token)) :
    sts.flatMap (fun st =>
        (st.filter (fun t => decide (t.type = .INTEGER_LITERAL))).map Token.value) =
      (sts.flatten.filter (fun t => decide (t.type = .INTEGER_LITERAL))).map
        Token.value := by
  induction sts with
  | nil => rfl
  | cons st sts ih =>
    rw [List.flatMap_cons, ih, List.flatten_cons, List.filter_append, List.map_append]

/-- C20: for every token sequence ending in END_OF_FILE, the operands of the `PUSH`
lines of the assembly program, in order, form a subsequence of the texts of the
INTEGER_LITERAL tokens of the sequence, in order: no operand is invented, repeated or
moved, and there are at most as many `PUSH` lines as INTEGER_LITERAL tokens. -/
theorem C20_push_operands_are_literals (toks : List Token) (h : ends_with_eof toks) :
    ∃ asm errs, parse_tokens toks = some (.ok (), asm, errs) ∧
      List.Sublist (asm.filterMap push_operand)
        ((toks.filter (fun t => decide (t.type = TokenType.INTEGER_LITERAL))).map
          Token.value) ∧
      (asm.filterMap push_operand).length ≤
        (toks.filter (fun t => decide (t.type = TokenType.INTEGER_LITERAL))).length := by
  have hsub : List.Sublist
      ((prologue ++ (statements toks).flatMap statement_instructions ++
        epilogue).filterMap push_operand)
      ((toks.filter (fun t => decide (t.type = TokenType.INTEGER_LITERAL))).map
        Token.value) := by
    have hp : prologue.filterMap push_operand = [] := by decide
    have he : epilogue.filterMap push_operand = [] := by decide
    rw [List.filterMap_append, List.filterMap_append, hp, he, List.nil_append,
      List.append_nil, List.filterMap_flatMap]
    obtain ⟨rest, hr⟩ := statements_flatten toks
    have h1 := sublist_flatMap (statements toks)
      (fun st => (statement_instructions st).filterMap push_operand)
      (fun st => (st.filter (fun t => decide (t.type = .INTEGER_LITERAL))).map Token.value)
      (fun st _ => statement_operands_sublist st)
    rw [flatMap_filter_map] at h1
    have h2 : List.Sublist (statements toks).flatten toks := by
      conv => rhs; rw [hr]
      exact List.sublist_append_left _ _
    exact h1.trans ((h2.filter _).map _)
  refine ⟨_, _, parse_tokens_spec toks h, hsub, ?_⟩
  have := hsub.length_le
  simpa using this

/-- Witness of C20 on the tokens of `-1 2; ~; !3;`: the operands are 1 and 3, the
literals 1, 2 and 3. -/
theorem C20_push_operands_are_literals_witness :
    (∃ asm errs,
      parse_tokens [⟨.OPERATOR_NEG, "-", 1, 1⟩, ⟨.INTEGER_LITERAL, "1", 1, 2⟩,
        ⟨.INTEGER_LITERAL, "2", 1, 4⟩, ⟨.SEMICOLON, ";", 1, 5⟩,
        ⟨.OPERATOR_BIT_NOT, "~", 1, 7⟩, ⟨.SEMICOLON, ";", 1, 8⟩,
        ⟨.OPERATOR_LOG_NOT, "!", 1, 10⟩, ⟨.INTEGER_LITERAL, "3", 1, 11⟩,
        ⟨.SEMICOLON, ";", 1, 12⟩, ⟨.END_OF_FILE, "", 1, 13⟩] = some (.ok (), asm, errs) ∧
      List.Sublist (asm.filterMap push_operand)
        ((([⟨.OPERATOR_NEG, "-", 1, 1⟩, ⟨.INTEGER_LITERAL, "1", 1, 2⟩,
          ⟨.INTEGER_LITERAL, "2", 1, 4⟩, ⟨.SEMICOLON, ";", 1, 5⟩,
          ⟨.OPERATOR_BIT_NOT, "~", 1, 7⟩, ⟨.SEMICOLON, ";", 1, 8⟩,
          ⟨.OPERATOR_LOG_NOT, "!", 1, 10⟩, ⟨.INTEGER_LITERAL, "3", 1, 11⟩,
          ⟨.SEMICOLON, ";", 1, 12⟩, ⟨.END_OF_FILE, "", 1, 13⟩] : List Token).filter
            (fun t => decide (t.type = TokenType.INTEGER_LITERAL))).map Token.value) ∧
      (asm.filterMap push_operand).length ≤
        (([⟨.OPERATOR_NEG, "-", 1, 1⟩, ⟨.INTEGER_LITERAL, "1", 1, 2⟩,
          ⟨.INTEGER_LITERAL, "2", 1, 4⟩, ⟨.SEMICOLON, ";", 1, 5⟩,
          ⟨.OPERATOR_BIT_NOT, "~", 1, 7⟩, ⟨.SEMICOLON, ";", 1, 8⟩,
          ⟨.OPERATOR_LOG_NOT, "!", 1, 10⟩, ⟨.INTEGER_LITERAL, "3", 1, 11⟩,
          ⟨.SEMICOLON, ";", 1, 12⟩, ⟨.END_OF_FILE, "", 1, 13⟩] : List Token).filter
            (fun t => decide (t.type = TokenType.INTEGER_LITERAL))).length) ∧
    (["section .text", "global _start", "_start:", "  PUSH 1", "  NEG", "  PUSH 3",
        "  LNOT", "", "  MOV RAX, 60", "  XOR RDI, RDI", "  SYSCALL"].filterMap
      push_operand) = ["1", "3"] :=
  ⟨C20_push_operands_are_literals _
      ⟨[⟨.OPERATOR_NEG, "-", 1, 1⟩, ⟨.INTEGER_LITERAL, "1", 1, 2⟩,
        ⟨.INTEGER_LITERAL, "2", 1, 4⟩, ⟨.SEMICOLON, ";", 1, 5⟩,
        ⟨.OPERATOR_BIT_NOT, "~", 1, 7⟩, ⟨.SEMICOLON, ";", 1, 8⟩,
        ⟨.OPERATOR_LOG_NOT, "!", 1, 10⟩, ⟨.INTEGER_LITERAL, "3", 1, 11⟩,
        ⟨.SEMICOLON, ";", 1, 12⟩], ⟨.END_OF_FILE, "", 1, 13⟩, rfl, rfl⟩,
   by decide⟩

end SimpleCompiler
